import Mathlib

/-!
Verification of the bsdiff-android binary delta engine.

This file shallowly embeds the Rust sources (`diff.rs`, `patch.rs`, `bsdf2.rs`,
`bsdf2_writer.rs`) in Lean:

* bytes are `Nat` values (kept below 256 by construction or by hypothesis);
* machine integers (`usize`, `isize`, `i64`) are `Nat` / `Int` with explicit
  wraparound where the source wraps, and `Option` results where the source
  would panic (out-of-bounds indexing, `debug_assert`, underflowing `usize`
  subtraction);
* fallible operations return `Except ErrKind _` mirroring `io::Result`;
* data-dependent `while` loops are given explicit fuel so every definition is
  a computable structural recursion; wrappers supply sufficient fuel where a
  bound is syntactically evident.
-/

namespace Bsdiff

/-- Error kinds used by the sources (a fragment of `std::io::ErrorKind`).
`resourceExhausted` never occurs in the code; it is included so that claims
phrased in terms of that kind can be stated. -/
inductive ErrKind where
  | invalidData
  | unexpectedEof
  | resourceExhausted
  | otherErr
  deriving DecidableEq, Repr

/-- Little-endian value of a byte list, as in `u64::from_le_bytes`; each entry
is reduced mod 256 because the source reads `u8` values. -/
def leVal : List Nat → Nat
  | [] => 0
  | b :: bs => b % 256 + 256 * leVal bs

/-- The `k` little-endian bytes of a natural number, as in `to_le_bytes`
applied to the (unsigned) 64-bit pattern. -/
def leBytes : Nat → Nat → List Nat
  | 0, _ => []
  | k + 1, u => u % 256 :: leBytes k (u / 256)

theorem leBytes_length (k u : Nat) : (leBytes k u).length = k := by
  induction k generalizing u with
  | zero => rfl
  | succ k ih => simp [leBytes, ih]

theorem leBytes_lt (k u : Nat) : ∀ b ∈ leBytes k u, b < 256 := by
  induction k generalizing u with
  | zero => intro b hb; simp [leBytes] at hb
  | succ k ih =>
    intro b hb
    simp only [leBytes, List.mem_cons] at hb
    rcases hb with h | h
    · omega
    · exact ih _ b h

theorem leVal_leBytes (k u : Nat) : leVal (leBytes k u) = u % 2 ^ (8 * k) := by
  induction k generalizing u with
  | zero => simp [leBytes, leVal, Nat.mod_one]
  | succ k ih =>
    have h : (2 : Nat) ^ (8 * (k + 1)) = 256 * 2 ^ (8 * k) := by ring
    rw [leBytes, leVal, ih, h, Nat.mod_mul]
    have := u.div_add_mod 256
    set t := u / 256 % 2 ^ (8 * k)
    omega

/-- `offtout` from `diff.rs` (textually the same function as `encode_int64` in
`bsdf2_writer.rs`): encode a signed integer in the bspatch sign-magnitude
format.  For `x ≥ 0` the little-endian bytes of `x`; otherwise the
little-endian bytes of `((-x) as u64) | (1 << 63)`. -/
def offtout (x : Int) : List Nat :=
  if 0 ≤ x then leBytes 8 x.toNat
  else leBytes 8 ((-x).toNat ||| 2 ^ 63)

/-- `offtin` from `patch.rs` (textually the same function appears in
`bsdf2.rs`): decode the sign-magnitude format.  The source tests
`y & (1 << 63)` and computes `-(y & !(1 << 63))` on the `i64` bit pattern;
on the unsigned little-endian value this is bit 63 and a mask with
`2^63 - 1`, and the masked value is nonnegative as an `i64`. -/
def offtin (b : List Nat) : Int :=
  let y := leVal b
  if y.testBit 63 then -(((y &&& (2 ^ 63 - 1)) : Nat) : Int) else ((y : Nat) : Int)

theorem offtout_length (x : Int) : (offtout x).length = 8 := by
  unfold offtout
  split <;> exact leBytes_length 8 _

theorem offtout_bytes_lt (x : Int) : ∀ b ∈ offtout x, b < 256 := by
  unfold offtout
  split <;> exact leBytes_lt 8 _

/-- Sign-magnitude round trip for every value strictly between `-(2^63)` and
`2^63`. -/
theorem offtin_offtout (x : Int) (h1 : -(2 ^ 63) < x) (h2 : x < 2 ^ 63) :
    offtin (offtout x) = x := by
  rcases le_or_lt 0 x with hx | hx
  · have hlt : x.toNat < 2 ^ 63 := by omega
    have hy : leVal (offtout x) = x.toNat := by
      rw [offtout, if_pos hx, leVal_leBytes]
      exact Nat.mod_eq_of_lt (by omega)
    rw [offtin, hy]
    rw [Nat.testBit_lt_two_pow hlt]
    simp [Int.toNat_of_nonneg hx]
  · have hnx : 0 ≤ -x := by omega
    have hm : (-x).toNat < 2 ^ 63 := by omega
    have hor : (-x).toNat ||| 2 ^ 63 = (-x).toNat + 2 ^ 63 := by
      have h0 := Nat.mul_add_lt_is_or hm 1
      rw [Nat.mul_one] at h0
      rw [Nat.or_comm]
      omega
    have hy : leVal (offtout x) = (-x).toNat + 2 ^ 63 := by
      rw [offtout, if_neg (by omega), leVal_leBytes, hor]
      exact Nat.mod_eq_of_lt (by omega)
    have hbit : ((-x).toNat + 2 ^ 63).testBit 63 = true := by
      rw [← hor, Nat.testBit_or, Nat.testBit_lt_two_pow hm, Nat.testBit_two_pow_self]
      rfl
    have hmask : ((-x).toNat + 2 ^ 63) &&& (2 ^ 63 - 1) = (-x).toNat := by
      rw [Nat.and_pow_two_sub_one_eq_mod, Nat.add_mod_right]
      exact Nat.mod_eq_of_lt hm
    rw [offtin, hy]
    simp only [hbit, if_true, hmask]
    rw [Int.toNat_of_nonneg hnx]
    omega

/-- Claim C2: for every `x` in `[-(2^63 - 1), 2^63 - 1]`, decoding (`offtin`)
the 8-byte sign-magnitude encoding of `x` (`offtout` / `encode_int64`) yields
`x` back.  (`i64::MIN = -2^63` is outside this range.) -/
theorem c2_integer_codec_roundtrip (x : Int)
    (h1 : -(2 ^ 63 - 1) ≤ x) (h2 : x ≤ 2 ^ 63 - 1) :
    offtin (offtout x) = x :=
  offtin_offtout x (by omega) (by omega)

/-- Witness for C2 at the spec's concrete example `x = -66`. -/
theorem c2_integer_codec_roundtrip_witness :
    (-(2 ^ 63 - 1) ≤ (-66 : Int)) ∧ offtin (offtout (-66)) = -66 :=
  ⟨by norm_num, c2_integer_codec_roundtrip (-66) (by norm_num) (by norm_num)⟩

deriving instance DecidableEq for Except

/-- Wrapping `u8` addition (`u8::wrapping_add`). -/
def wrappingAdd8 (a b : Nat) : Nat := (a + b) % 256

/-- Wrapping `u8` subtraction (`u8::wrapping_sub`). -/
def wrappingSub8 (a b : Nat) : Nat := (a % 256 + 256 - b % 256) % 256

/-- `usize` subtraction; `none` models the debug-build underflow panic. -/
def usub (a b : Nat) : Option Nat := if b ≤ a then some (a - b) else none

/-- A `usize` value reinterpreted as `i64` (`as i64`). -/
def usizeAsI64 (u : Nat) : Int :=
  if u < 2 ^ 63 then (u : Int) else (u : Int) - 2 ^ 64

/-- `i64::checked_add`. -/
def i64CheckedAdd (a b : Int) : Option Int :=
  if -(2 ^ 63) ≤ a + b ∧ a + b < 2 ^ 63 then some (a + b) else none

/-- The loop of the streaming applier `patch` in `patch.rs` (lines 43–135),
with fuel.  `data` models the `T: Read` patch source as the remaining bytes,
`out` the `W: Write + DerefMut<Target = [u8]>` output buffer.  The source
appends the raw `mix_len + copy_len` bytes with `io::copy` and then adds the
`old` bytes into the mix region in place; here the result of the two steps is
appended in one go.  `usize` overflow checks on `mix_len + copy_len` and
`mix_start + mix_len` are dropped because `Nat` does not overflow. -/
def patchGo (old : List Nat) : Nat → Nat → List Nat → List Nat → Except ErrKind (List Nat)
  | 0, _, _, _ => .error .otherErr
  | fuel + 1, oldpos, data, out =>
    if data.length = 0 then .ok out
    else if data.length < 24 then .error .unexpectedEof
    else if offtin ((data.take 24).take 8) < 0 ∨
        offtin (((data.take 24).drop 8).take 8) < 0 then .error .invalidData
    else if ((data.drop 24).take ((offtin ((data.take 24).take 8)).toNat +
          (offtin (((data.take 24).drop 8).take 8)).toNat)).length ≠
        (offtin ((data.take 24).take 8)).toNat +
          (offtin (((data.take 24).drop 8).take 8)).toNat then .error .unexpectedEof
    else if old.length < oldpos + (offtin ((data.take 24).take 8)).toNat then
      .error .unexpectedEof
    else
      match i64CheckedAdd (usizeAsI64 (oldpos + (offtin ((data.take 24).take 8)).toNat))
          (offtin ((data.take 24).drop 16)) with
      | none => .error .invalidData
      | some newOldpos =>
        if newOldpos < 0 then .error .invalidData
        else
          patchGo old fuel newOldpos.toNat
            ((data.drop 24).drop ((offtin ((data.take 24).take 8)).toNat +
              (offtin (((data.take 24).drop 8).take 8)).toNat))
            (out ++ (List.zipWith wrappingAdd8
              (((data.drop 24).take ((offtin ((data.take 24).take 8)).toNat +
                  (offtin (((data.take 24).drop 8).take 8)).toNat)).take
                (offtin ((data.take 24).take 8)).toNat)
              ((old.drop oldpos).take (offtin ((data.take 24).take 8)).toNat) ++
              ((data.drop 24).take ((offtin ((data.take 24).take 8)).toNat +
                  (offtin (((data.take 24).drop 8).take 8)).toNat)).drop
                (offtin ((data.take 24).take 8)).toNat))

/-- The streaming applier `patch`.  Every loop iteration consumes at least 24
bytes of `data`, so `data.length / 24 + 1` fuel never runs out. -/
def patch (old data : List Nat) : Except ErrKind (List Nat) :=
  patchGo old (data.length / 24 + 1) 0 data []

/-- Claim C10: the streaming applier never substitutes zero for out-of-range
`old` reads: a control tuple whose add range extends past the end of `old`
(`oldpos + add_len > |old|`) makes `patch` fail with `UnexpectedEof`
(provided the tuple itself decoded: lengths nonnegative and the
`add_len + copy_len` data bytes present). -/
theorem c10_streaming_no_zero_substitution (old : List Nat) (fuel oldpos : Nat)
    (data out : List Nat)
    (h24 : 24 ≤ data.length)
    (hmix : 0 ≤ offtin ((data.take 24).take 8))
    (hcopy : 0 ≤ offtin (((data.take 24).drop 8).take 8))
    (hread : (offtin ((data.take 24).take 8)).toNat
        + (offtin (((data.take 24).drop 8).take 8)).toNat ≤ (data.drop 24).length)
    (hoob : old.length < oldpos + (offtin ((data.take 24).take 8)).toNat) :
    patchGo old (fuel + 1) oldpos data out = .error .unexpectedEof := by
  rw [patchGo]
  rw [if_neg (by omega), if_neg (by omega), if_neg (by omega)]
  have hlen : ((data.drop 24).take
      ((offtin ((data.take 24).take 8)).toNat
        + (offtin (((data.take 24).drop 8).take 8)).toNat)).length
      = (offtin ((data.take 24).take 8)).toNat
        + (offtin (((data.take 24).drop 8).take 8)).toNat := by
    rw [List.length_take]
    omega
  rw [if_neg (by simpa using hlen)]
  rw [if_pos hoob]

/-- Witness for C10: a one-tuple patch with `add_len = 1` against an empty
`old`. -/
theorem c10_streaming_no_zero_substitution_witness :
    patchGo [] 1 0 (offtout 1 ++ offtout 0 ++ offtout 0 ++ [5]) [] =
      .error .unexpectedEof :=
  c10_streaming_no_zero_substitution [] 0 0 _ [] (by decide) (by decide)
    (by decide) (by decide) (by decide)

/-- `usize::saturating_add` (64-bit). -/
def satAdd64 (a b : Nat) : Nat := min (a + b) (2 ^ 64 - 1)

/-- State of the `patch_bsdf2` tuple loop (`bsdf2.rs` lines 189–191): the
output buffer and the three stream cursors. -/
structure Bsdf2St where
  out : List Nat
  oldpos : Nat
  diffPos : Nat
  extraPos : Nat
  deriving DecidableEq, Repr

/-- The ADD operation of one control tuple (`bsdf2.rs` lines 232–254):
out-of-range `old` reads substitute 0 (`old.get(oldpos + i).copied().unwrap_or(0)`),
`oldpos` advances with saturation, `diff_pos` advances by `add_len`. -/
def bsdf2AddOp (old diffData : List Nat) (st : Bsdf2St) (addLen : Nat) :
    Bsdf2St × Option ErrKind :=
  if 0 < addLen then
    if diffData.length < st.diffPos + addLen then (st, some .invalidData)
    else
      ({ st with
          out := st.out ++ (List.range addLen).map (fun i =>
            wrappingAdd8 (old.getD (st.oldpos + i) 0) (diffData.getD (st.diffPos + i) 0)),
          oldpos := satAdd64 st.oldpos addLen,
          diffPos := st.diffPos + addLen }, none)
  else (st, none)

/-- The COPY operation of one control tuple (`bsdf2.rs` lines 256–268). -/
def bsdf2CopyOp (extraData : List Nat) (st : Bsdf2St) (copyLen : Nat) :
    Bsdf2St × Option ErrKind :=
  if 0 < copyLen then
    if extraData.length < st.extraPos + copyLen then (st, some .invalidData)
    else
      ({ st with
          out := st.out ++ (extraData.drop st.extraPos).take copyLen,
          extraPos := st.extraPos + copyLen }, none)
  else (st, none)

/-- Process one 24-byte control tuple (`bsdf2.rs` lines 203–286).  The state
reached so far (including bytes written before a late failure, e.g. a bad
seek) is returned together with the error, if any. -/
def bsdf2ProcessTuple (old diffData extraData : List Nat) (newSize : Nat)
    (st : Bsdf2St) (ctrl : List Nat) : Bsdf2St × Option ErrKind :=
  let addLenRaw := offtin (ctrl.take 8)
  let copyLenRaw := offtin ((ctrl.drop 8).take 8)
  let seekAmount := offtin ((ctrl.drop 16).take 8)
  if addLenRaw < 0 ∨ copyLenRaw < 0 then (st, some .invalidData)
  else
    let addLen := addLenRaw.toNat
    let copyLen := copyLenRaw.toNat
    if newSize < st.out.length + addLen + copyLen then (st, some .invalidData)
    else
      match bsdf2AddOp old diffData st addLen with
      | (st1, some e) => (st1, some e)
      | (st1, none) =>
        match bsdf2CopyOp extraData st1 copyLen with
        | (st2, some e) => (st2, some e)
        | (st2, none) =>
          match i64CheckedAdd (usizeAsI64 st2.oldpos) seekAmount with
          | none => (st2, some .invalidData)
          | some newOldpos =>
            if newOldpos < 0 then (st2, some .invalidData)
            else ({ st2 with oldpos := newOldpos.toNat }, none)

/-- The control-tuple loop of `patch_bsdf2` (lines 194–286), with fuel. -/
def bsdf2LoopGo (old diffData extraData : List Nat) (newSize : Nat) :
    Nat → List Nat → Bsdf2St → Bsdf2St × Option ErrKind
  | 0, _, st => (st, some .otherErr)
  | fuel + 1, ctrlData, st =>
    if ctrlData.length = 0 then (st, none)
    else if ctrlData.length < 24 then (st, some .invalidData)
    else
      match bsdf2ProcessTuple old diffData extraData newSize st (ctrlData.take 24) with
      | (st1, some e) => (st1, some e)
      | (st1, none) =>
        bsdf2LoopGo old diffData extraData newSize fuel (ctrlData.drop 24) st1

/-- `patch_bsdf2` (`bsdf2.rs` lines 179–312) after header parsing: run the
tuple loop on the decompressed streams, then validate the final state (lines
289–309).  The first component is the caller's buffer as left by the call
(the Rust function writes through `&mut Vec<u8>`), the second the error, if
any.  Every loop iteration consumes 24 control bytes, so
`ctrlData.length / 24 + 1` fuel never runs out. -/
def patch_bsdf2_core (old ctrlData diffData extraData : List Nat) (newSize : Nat) :
    Bsdf2St × Option ErrKind :=
  match bsdf2LoopGo old diffData extraData newSize (ctrlData.length / 24 + 1)
      ctrlData ⟨[], 0, 0, 0⟩ with
  | (st, some e) => (st, some e)
  | (st, none) =>
    if st.out.length ≠ newSize then (st, some .invalidData)
    else if st.diffPos ≠ diffData.length then (st, some .invalidData)
    else if st.extraPos ≠ extraData.length then (st, some .invalidData)
    else (st, none)

/-- Claim C3: the applier returns `Ok` only if the output length equals the
declared `new_size` and both the diff and the extra stream were fully
consumed; if the tuple loop itself succeeds but any of the three final checks
fails, the result is an `InvalidData` error. -/
theorem c3_final_state_validation (old ctrlData diffData extraData : List Nat)
    (newSize : Nat) :
    ((patch_bsdf2_core old ctrlData diffData extraData newSize).2 = none →
      (patch_bsdf2_core old ctrlData diffData extraData newSize).1.out.length = newSize ∧
      (patch_bsdf2_core old ctrlData diffData extraData newSize).1.diffPos = diffData.length ∧
      (patch_bsdf2_core old ctrlData diffData extraData newSize).1.extraPos = extraData.length) ∧
    (∀ st, bsdf2LoopGo old diffData extraData newSize (ctrlData.length / 24 + 1)
        ctrlData ⟨[], 0, 0, 0⟩ = (st, none) →
      st.out.length ≠ newSize ∨ st.diffPos ≠ diffData.length ∨
        st.extraPos ≠ extraData.length →
      (patch_bsdf2_core old ctrlData diffData extraData newSize).2 =
        some ErrKind.invalidData) := by
  unfold patch_bsdf2_core
  cases h : bsdf2LoopGo old diffData extraData newSize (ctrlData.length / 24 + 1)
      ctrlData ⟨[], 0, 0, 0⟩ with
  | mk st err =>
    cases err with
    | some e =>
      constructor
      · intro hnone
        simp at hnone
      · intro st' hst'
        simp at hst'
    | none =>
      constructor
      · intro hnone
        by_cases h1 : st.out.length = newSize
        · by_cases h2 : st.diffPos = diffData.length
          · by_cases h3 : st.extraPos = extraData.length
            · simp [h1, h2, h3]
            · simp [h1, h2, h3] at hnone
          · simp [h1, h2] at hnone
        · simp [h1] at hnone
      · intro st' hst' hmis
        have hst2 : st = st' := by
          have := congrArg Prod.fst hst'
          simpa using this
        subst hst2
        rcases hmis with hm | hm | hm
        · simp [hm]
        · by_cases h1 : st.out.length = newSize <;> simp [h1, hm]
        · by_cases h1 : st.out.length = newSize <;>
            by_cases h2 : st.diffPos = diffData.length <;> simp [h1, h2, hm]

/-- Witness for C3 at empty streams and `new_size = 0`. -/
theorem c3_final_state_validation_witness :
    (patch_bsdf2_core [] [] [] [] 0).1.out.length = 0 ∧
    (patch_bsdf2_core [] [] [] [] 0).1.diffPos = ([] : List Nat).length ∧
    (patch_bsdf2_core [] [] [] [] 0).1.extraPos = ([] : List Nat).length :=
  (c3_final_state_validation [] [] [] [] 0).1 (by decide)

/-- Claim C4: in a successful ADD step, output byte `j` is
`old[oldpos + j]` (0 when out of range) wrapping-added to
`diff[diff_pos + j]`, and afterwards `oldpos` advances by `add_len` with
saturation while `diff_pos` advances by `add_len` exactly. -/
theorem c4_add_zero_substitution (old diffData : List Nat) (st : Bsdf2St)
    (addLen : Nat) (hdiff : st.diffPos + addLen ≤ diffData.length)
    (hpos : st.oldpos < 2 ^ 64) :
    (bsdf2AddOp old diffData st addLen).2 = none ∧
    (∀ j, j < addLen →
      (bsdf2AddOp old diffData st addLen).1.out[st.out.length + j]? =
        some (wrappingAdd8 (old.getD (st.oldpos + j) 0)
          (diffData.getD (st.diffPos + j) 0))) ∧
    (bsdf2AddOp old diffData st addLen).1.oldpos = satAdd64 st.oldpos addLen ∧
    (bsdf2AddOp old diffData st addLen).1.diffPos = st.diffPos + addLen := by
  by_cases hz : 0 < addLen
  · rw [bsdf2AddOp, if_pos hz, if_neg (by omega)]
    refine ⟨rfl, ?_, rfl, rfl⟩
    intro j hj
    simp only
    rw [List.getElem?_append_right (by omega)]
    have hjl : st.out.length + j - st.out.length = j := by omega
    rw [hjl, List.getElem?_map, List.getElem?_range hj]
    rfl
  · have hz0 : addLen = 0 := by omega
    subst hz0
    rw [bsdf2AddOp, if_neg (by omega)]
    refine ⟨rfl, ?_, ?_, ?_⟩
    · intro j hj
      omega
    · show st.oldpos = satAdd64 st.oldpos 0
      rw [satAdd64]
      omega
    · show st.diffPos = st.diffPos + 0
      omega

/-- Witness for C4: one added byte, `old` empty (so the zero substitution is
exercised), `diff = [7]`. -/
theorem c4_add_zero_substitution_witness :
    (bsdf2AddOp [] [7] ⟨[], 0, 0, 0⟩ 1).2 = none ∧
    (∀ j, j < 1 →
      (bsdf2AddOp [] [7] ⟨[], 0, 0, 0⟩ 1).1.out[(0 : Nat) + j]? =
        some (wrappingAdd8 (List.getD [] ((0 : Nat) + j) 0)
          (List.getD [7] ((0 : Nat) + j) 0))) ∧
    (bsdf2AddOp [] [7] ⟨[], 0, 0, 0⟩ 1).1.oldpos = satAdd64 0 1 ∧
    (bsdf2AddOp [] [7] ⟨[], 0, 0, 0⟩ 1).1.diffPos = 0 + 1 :=
  c4_add_zero_substitution [] [7] ⟨[], 0, 0, 0⟩ 1 (by decide) (by norm_num)

theorem bsdf2AddOp_out_length_le (old diffData : List Nat) (st : Bsdf2St)
    (addLen : Nat) :
    (bsdf2AddOp old diffData st addLen).1.out.length ≤ st.out.length + addLen := by
  rw [bsdf2AddOp]
  split
  · split
    · simp
    · simp
  · simp

theorem bsdf2CopyOp_out_length_le (extraData : List Nat) (st : Bsdf2St)
    (copyLen : Nat) :
    (bsdf2CopyOp extraData st copyLen).1.out.length ≤ st.out.length + copyLen := by
  rw [bsdf2CopyOp]
  split
  · split
    · simp
    · simp [List.length_take]
  · simp

theorem bsdf2ProcessTuple_out_le (old diffData extraData : List Nat)
    (newSize : Nat) (st : Bsdf2St) (ctrl : List Nat)
    (h : st.out.length ≤ newSize) :
    (bsdf2ProcessTuple old diffData extraData newSize st ctrl).1.out.length ≤ newSize := by
  rw [bsdf2ProcessTuple]
  simp only
  split
  · exact h
  · split
    · exact h
    · rename_i hneg hle
      have ha := bsdf2AddOp_out_length_le old diffData st
        (offtin (ctrl.take 8)).toNat
      cases hadd : bsdf2AddOp old diffData st (offtin (ctrl.take 8)).toNat with
      | mk st1 e1 =>
        rw [hadd] at ha
        cases e1 with
        | some e => simpa using ha.trans (by omega)
        | none =>
          simp only
          have hc := bsdf2CopyOp_out_length_le extraData st1
            (offtin ((ctrl.drop 8).take 8)).toNat
          cases hcopy : bsdf2CopyOp extraData st1 (offtin ((ctrl.drop 8).take 8)).toNat with
          | mk st2 e2 =>
            rw [hcopy] at hc
            have h2 : st2.out.length ≤ newSize := by simp at ha hc; omega
            cases e2 with
            | some e => simpa using h2
            | none =>
              simp only
              cases i64CheckedAdd (usizeAsI64 st2.oldpos)
                  (offtin ((ctrl.drop 16).take 8)) with
              | none => simpa using h2
              | some v =>
                simp only
                split
                · simpa using h2
                · simpa using h2

theorem bsdf2LoopGo_out_le (old diffData extraData : List Nat) (newSize : Nat) :
    ∀ fuel ctrlData st, st.out.length ≤ newSize →
      (bsdf2LoopGo old diffData extraData newSize fuel ctrlData st).1.out.length ≤ newSize := by
  intro fuel
  induction fuel with
  | zero => intro ctrlData st h; exact h
  | succ fuel ih =>
    intro ctrlData st h
    rw [bsdf2LoopGo]
    split
    · exact h
    · split
      · exact h
      · have hp := bsdf2ProcessTuple_out_le old diffData extraData newSize st
          (ctrlData.take 24) h
        cases hstep : bsdf2ProcessTuple old diffData extraData newSize st
            (ctrlData.take 24) with
        | mk st1 e1 =>
          rw [hstep] at hp
          cases e1 with
          | some e => simpa using hp
          | none => exact ih (ctrlData.drop 24) st1 hp

/-- Claim C9 (amended): a failed apply still surfaces the error to the caller
(the success value is never produced), but the caller's buffer is NOT rolled
back — it may retain a partial reconstruction.  What does hold on every path,
success or error, is that the buffer never grows beyond `new_size`. -/
theorem c9_no_partial_results_amended (old ctrlData diffData extraData : List Nat)
    (newSize : Nat) :
    (patch_bsdf2_core old ctrlData diffData extraData newSize).1.out.length ≤ newSize := by
  rw [patch_bsdf2_core]
  have h := bsdf2LoopGo_out_le old diffData extraData newSize
    (ctrlData.length / 24 + 1) ctrlData ⟨[], 0, 0, 0⟩ (by simp)
  cases hloop : bsdf2LoopGo old diffData extraData newSize (ctrlData.length / 24 + 1)
      ctrlData ⟨[], 0, 0, 0⟩ with
  | mk st err =>
    rw [hloop] at h
    cases err with
    | some e => simpa using h
    | none =>
      simp only
      split
      · simpa using h
      · split
        · simpa using h
        · split
          · simpa using h
          · simpa using h

/-- Counterexample to C9 as stated: a patch whose first tuple copies one byte
and whose second tuple then fails (`diff` exhausted) leaves the partial
reconstruction `[97]` in the caller's buffer while returning `InvalidData`. -/
theorem c9_no_partial_results_counterexample :
    (patch_bsdf2_core []
        (offtout 0 ++ offtout 1 ++ offtout 0 ++ offtout 1 ++ offtout 0 ++ offtout 0)
        [] [97] 5).2 = some ErrKind.invalidData ∧
    (patch_bsdf2_core []
        (offtout 0 ++ offtout 1 ++ offtout 0 ++ offtout 1 ++ offtout 0 ++ offtout 0)
        [] [97] 5).1.out = [97] := by decide

/-- The compression algorithm tags (`bsdf2.rs` lines 12–17); wire values
0 / 1 / 2. -/
inductive CompressionAlgorithm where
  | none'
  | bz2
  | brotli
  deriving DecidableEq, Repr

/-- `CompressionAlgorithm::from_u8` (`bsdf2.rs` lines 20–31). -/
def CompressionAlgorithm.from_u8 (v : Nat) : Except ErrKind CompressionAlgorithm :=
  if v = 0 then .ok .none'
  else if v = 1 then .ok .bz2
  else if v = 2 then .ok .brotli
  else .error .invalidData

/-- The byte string `b"BSDIFF40"`. -/
def BSDIFF_MAGIC : List Nat := [66, 83, 68, 73, 70, 70, 52, 48]

/-- The byte string `b"BSDF2"`. -/
def BSDF2_MAGIC : List Nat := [66, 83, 68, 70, 50]

/-- `MAX_NEW_SIZE` (`bsdf2.rs` line 10): 2 GiB. -/
def MAX_NEW_SIZE : Nat := 2 * 1024 * 1024 * 1024

/-- `decompress` (`bsdf2.rs` lines 46–62).  `None` is the identity; the
bzip2 and brotli codecs are external crates and are passed in as oracles
`dbz` / `dbr`. -/
def decompressOr (dbz dbr : List Nat → Except ErrKind (List Nat)) :
    CompressionAlgorithm → List Nat → Except ErrKind (List Nat)
  | .none', d => .ok d
  | .bz2, d => dbz d
  | .brotli, d => dbr d

/-- Magic dispatch of `parse_bsdf2_header` (lines 78–97): `BSDIFF40` means
Bz2 for all three streams; `BSDF2` is followed by one tag byte per stream. -/
def header_algs (magic : List Nat) :
    Except ErrKind (CompressionAlgorithm × CompressionAlgorithm × CompressionAlgorithm) :=
  if magic = BSDIFF_MAGIC then .ok (.bz2, .bz2, .bz2)
  else if magic.take 5 = BSDF2_MAGIC then
    match CompressionAlgorithm.from_u8 (magic.getD 5 0),
        CompressionAlgorithm.from_u8 (magic.getD 6 0),
        CompressionAlgorithm.from_u8 (magic.getD 7 0) with
    | .error e, _, _ => .error e
    | .ok _, .error e, _ => .error e
    | .ok _, .ok _, .error e => .error e
    | .ok a, .ok b, .ok c => .ok (a, b, c)
  else .error .invalidData

/-- `parse_bsdf2_header` (`bsdf2.rs` lines 65–176), with the two external
decompressors abstracted as oracles.  `usize` overflow checks on
`32 + len_control + len_diff` are dropped because `Nat` does not overflow
(the decoded lengths are below `2^63`). -/
def parse_bsdf2_header (dbz dbr : List Nat → Except ErrKind (List Nat))
    (patchData : List Nat) :
    Except ErrKind (Int × List Nat × List Nat × List Nat) :=
  if patchData.length < 32 then .error .invalidData
  else
    match header_algs (patchData.take 8) with
    | .error e => .error e
    | .ok algs =>
      if offtin ((patchData.drop 8).take 8) < 0 ∨ offtin ((patchData.drop 16).take 8) < 0 ∨
          offtin ((patchData.drop 24).take 8) < 0 then .error .invalidData
      else if MAX_NEW_SIZE < (offtin ((patchData.drop 24).take 8)).toNat then
        .error .invalidData
      else if patchData.length < 32 + (offtin ((patchData.drop 8).take 8)).toNat
          + (offtin ((patchData.drop 16).take 8)).toNat then .error .invalidData
      else if patchData.length < 32 + (offtin ((patchData.drop 8).take 8)).toNat then
        .error .invalidData
      else
        match decompressOr dbz dbr algs.1
            ((patchData.drop 32).take (offtin ((patchData.drop 8).take 8)).toNat) with
        | .error e => .error e
        | .ok controlData =>
          if controlData.length % 24 ≠ 0 then .error .invalidData
          else if patchData.length < 32 + (offtin ((patchData.drop 8).take 8)).toNat
              + (offtin ((patchData.drop 16).take 8)).toNat then .error .invalidData
          else
            match decompressOr dbz dbr algs.2.1
                ((patchData.drop (32 + (offtin ((patchData.drop 8).take 8)).toNat)).take
                  (offtin ((patchData.drop 16).take 8)).toNat) with
            | .error e => .error e
            | .ok diffData =>
              match decompressOr dbz dbr algs.2.2
                  (patchData.drop (32 + (offtin ((patchData.drop 8).take 8)).toNat
                    + (offtin ((patchData.drop 16).take 8)).toNat)) with
              | .error e => .error e
              | .ok extraData =>
                .ok (offtin ((patchData.drop 24).take 8), controlData, diffData, extraData)

/-- A decompression oracle that never fails (used to instantiate witnesses;
for tag 0 the oracles are not even consulted). -/
def idDecompress : List Nat → Except ErrKind (List Nat) := fun d => .ok d

theorem from_u8_error_invalidData (v : Nat) (e : ErrKind)
    (h : CompressionAlgorithm.from_u8 v = .error e) : e = ErrKind.invalidData := by
  rw [CompressionAlgorithm.from_u8] at h
  split at h
  · cases h
  · split at h
    · cases h
    · split at h
      · cases h
      · injection h with h
        exact h.symm

theorem from_u8_isOk_iff (v : Nat) :
    (∃ a, CompressionAlgorithm.from_u8 v = .ok a) ↔ v ≤ 2 := by
  rw [CompressionAlgorithm.from_u8]
  by_cases h0 : v = 0
  · simp [h0]
  · by_cases h1 : v = 1
    · simp [h0, h1]
    · by_cases h2 : v = 2
      · simp [h0, h1, h2]
      · simp only [if_neg h0, if_neg h1, if_neg h2]
        constructor
        · rintro ⟨a, ha⟩
          cases ha
        · intro hle
          omega

theorem header_algs_error_invalidData (magic : List Nat) (e : ErrKind)
    (h : header_algs magic = .error e) : e = ErrKind.invalidData := by
  rw [header_algs] at h
  by_cases hm : magic = BSDIFF_MAGIC
  · rw [if_pos hm] at h
    cases h
  · rw [if_neg hm] at h
    by_cases h5 : magic.take 5 = BSDF2_MAGIC
    · rw [if_pos h5] at h
      cases e5 : CompressionAlgorithm.from_u8 (magic.getD 5 0) with
      | error ea =>
        rw [e5] at h
        injection h with h
        exact h ▸ from_u8_error_invalidData _ _ e5
      | ok a5 =>
        rw [e5] at h
        cases e6 : CompressionAlgorithm.from_u8 (magic.getD 6 0) with
        | error ea =>
          rw [e6] at h
          injection h with h
          exact h ▸ from_u8_error_invalidData _ _ e6
        | ok a6 =>
          rw [e6] at h
          cases e7 : CompressionAlgorithm.from_u8 (magic.getD 7 0) with
          | error ea =>
            rw [e7] at h
            injection h with h
            exact h ▸ from_u8_error_invalidData _ _ e7
          | ok a7 =>
            rw [e7] at h
            cases h
    · rw [if_neg h5] at h
      injection h with h
      exact h.symm

theorem header_algs_error_iff (magic : List Nat) :
    (∃ e, header_algs magic = .error e) ↔
      (¬ magic = BSDIFF_MAGIC ∧
        ¬ (magic.take 5 = BSDF2_MAGIC ∧ magic.getD 5 0 ≤ 2 ∧ magic.getD 6 0 ≤ 2 ∧
            magic.getD 7 0 ≤ 2)) := by
  rw [header_algs]
  by_cases hm : magic = BSDIFF_MAGIC
  · simp [hm]
  · by_cases h5 : magic.take 5 = BSDF2_MAGIC
    · simp only [if_neg hm, if_pos h5]
      cases e5 : CompressionAlgorithm.from_u8 (magic.getD 5 0) with
      | error e =>
        simp only
        constructor
        · intro _
          refine ⟨hm, fun hc => ?_⟩
          have := (from_u8_isOk_iff (magic.getD 5 0)).mpr hc.2.1
          rw [e5] at this
          rcases this with ⟨a, ha⟩
          cases ha
        · intro _
          exact ⟨e, rfl⟩
      | ok a5 =>
        cases e6 : CompressionAlgorithm.from_u8 (magic.getD 6 0) with
        | error e =>
          simp only
          constructor
          · intro _
            refine ⟨hm, fun hc => ?_⟩
            have := (from_u8_isOk_iff (magic.getD 6 0)).mpr hc.2.2.1
            rw [e6] at this
            rcases this with ⟨a, ha⟩
            cases ha
          · intro _
            exact ⟨e, rfl⟩
        | ok a6 =>
          cases e7 : CompressionAlgorithm.from_u8 (magic.getD 7 0) with
          | error e =>
            simp only
            constructor
            · intro _
              refine ⟨hm, fun hc => ?_⟩
              have := (from_u8_isOk_iff (magic.getD 7 0)).mpr hc.2.2.2
              rw [e7] at this
              rcases this with ⟨a, ha⟩
              cases ha
            · intro _
              exact ⟨e, rfl⟩
          | ok a7 =>
            simp only
            constructor
            · rintro ⟨e, he⟩
              cases he
            · rintro ⟨-, hc⟩
              exact absurd ⟨h5, (from_u8_isOk_iff _).mp ⟨a5, e5⟩,
                (from_u8_isOk_iff _).mp ⟨a6, e6⟩, (from_u8_isOk_iff _).mp ⟨a7, e7⟩⟩ hc
    · simp only [if_neg hm, if_neg h5]
      constructor
      · intro _
        exact ⟨hm, fun hc => h5 hc.1⟩
      · intro _
        exact ⟨.invalidData, rfl⟩

theorem decompressOr_total (dbz dbr : List Nat → Except ErrKind (List Nat))
    (hbz : ∀ d, ∃ r, dbz d = .ok r) (hbr : ∀ d, ∃ r, dbr d = .ok r)
    (a : CompressionAlgorithm) (d : List Nat) :
    ∃ r, decompressOr dbz dbr a d = .ok r := by
  cases a
  · exact ⟨d, rfl⟩
  · exact hbz d
  · exact hbr d

/-- The reject conditions of claim C6, stated following the claim's words,
extended with the `new_size > 2 GiB` condition that the code also enforces
(the extension is what the counterexample forces). -/
def headerRejectCond (dbz dbr : List Nat → Except ErrKind (List Nat))
    (p : List Nat) : Prop :=
  p.length < 32 ∨
  (¬ p.take 8 = BSDIFF_MAGIC ∧
    ¬ ((p.take 8).take 5 = BSDF2_MAGIC ∧ (p.take 8).getD 5 0 ≤ 2 ∧
        (p.take 8).getD 6 0 ≤ 2 ∧ (p.take 8).getD 7 0 ≤ 2)) ∨
  offtin ((p.drop 8).take 8) < 0 ∨ offtin ((p.drop 16).take 8) < 0 ∨
  offtin ((p.drop 24).take 8) < 0 ∨
  MAX_NEW_SIZE < (offtin ((p.drop 24).take 8)).toNat ∨
  p.length < 32 + (offtin ((p.drop 8).take 8)).toNat + (offtin ((p.drop 16).take 8)).toNat ∨
  (∃ a b c ctrl, header_algs (p.take 8) = .ok (a, b, c) ∧
    decompressOr dbz dbr a ((p.drop 32).take (offtin ((p.drop 8).take 8)).toNat) = .ok ctrl ∧
    ctrl.length % 24 ≠ 0)

theorem parse_error_characterization (dbz dbr : List Nat → Except ErrKind (List Nat))
    (hbz : ∀ d, ∃ r, dbz d = .ok r) (hbr : ∀ d, ∃ r, dbr d = .ok r)
    (p : List Nat) (e : ErrKind)
    (h : parse_bsdf2_header dbz dbr p = .error e) :
    headerRejectCond dbz dbr p ∧ e = ErrKind.invalidData := by
  rw [parse_bsdf2_header] at h
  rw [headerRejectCond]
  split at h
  · injection h with h
    exact ⟨Or.inl (by omega), h.symm⟩
  · rename_i hlen
    split at h
    · rename_i e' heqa
      injection h with h
      subst h
      refine ⟨Or.inr (Or.inl ?_), header_algs_error_invalidData _ _ heqa⟩
      exact (header_algs_error_iff (p.take 8)).mp ⟨e', heqa⟩
    · rename_i algs heqa
      split at h
      · rename_i hneg
        injection h with h
        rcases hneg with hn | hn | hn
        · exact ⟨Or.inr (Or.inr (Or.inl hn)), h.symm⟩
        · exact ⟨Or.inr (Or.inr (Or.inr (Or.inl hn))), h.symm⟩
        · exact ⟨Or.inr (Or.inr (Or.inr (Or.inr (Or.inl hn)))), h.symm⟩
      · split at h
        · rename_i hmax
          injection h with h
          exact ⟨Or.inr (Or.inr (Or.inr (Or.inr (Or.inr (Or.inl hmax))))), h.symm⟩
        · split at h
          · rename_i hbound
            injection h with h
            exact ⟨Or.inr (Or.inr (Or.inr (Or.inr (Or.inr (Or.inr (Or.inl hbound)))))),
              h.symm⟩
          · rename_i hbound
            split at h
            · rename_i hbound2
              exact absurd hbound2 (by omega)
            · split at h
              · rename_i e' heqd
                rcases decompressOr_total dbz dbr hbz hbr algs.1
                  ((p.drop 32).take (offtin ((p.drop 8).take 8)).toNat) with ⟨r, hr⟩
                rw [heqd] at hr
                cases hr
              · rename_i ctrl heqd
                split at h
                · rename_i h24
                  injection h with h
                  exact ⟨Or.inr (Or.inr (Or.inr (Or.inr (Or.inr (Or.inr (Or.inr
                    ⟨algs.1, algs.2.1, algs.2.2, ctrl, heqa, heqd, h24⟩)))))), h.symm⟩
                · split at h
                  · rename_i e' heqd2
                    rcases decompressOr_total dbz dbr hbz hbr algs.2.1
                      ((p.drop (32 + (offtin ((p.drop 8).take 8)).toNat)).take
                        (offtin ((p.drop 16).take 8)).toNat) with ⟨r, hr⟩
                    rw [heqd2] at hr
                    cases hr
                  · rename_i diffD heqd2
                    split at h
                    · rename_i e' heqd3
                      rcases decompressOr_total dbz dbr hbz hbr algs.2.2
                        (p.drop (32 + (offtin ((p.drop 8).take 8)).toNat
                          + (offtin ((p.drop 16).take 8)).toNat)) with ⟨r, hr⟩
                      rw [heqd3] at hr
                      cases hr
                    · cases h

theorem parse_ok_characterization (dbz dbr : List Nat → Except ErrKind (List Nat))
    (p : List Nat) (v : Int × List Nat × List Nat × List Nat)
    (h : parse_bsdf2_header dbz dbr p = .ok v) :
    ¬ headerRejectCond dbz dbr p := by
  rw [parse_bsdf2_header] at h
  rw [headerRejectCond]
  split at h
  · cases h
  · rename_i hlen
    split at h
    · cases h
    · rename_i algs heqa
      split at h
      · cases h
      · rename_i hneg
        split at h
        · cases h
        · rename_i hmax
          split at h
          · cases h
          · rename_i hbound
            split at h
            · cases h
            · split at h
              · cases h
              · rename_i ctrl heqd
                split at h
                · cases h
                · rename_i h24
                  intro hrej
                  rcases hrej with hr | hr | hr | hr | hr | hr | hr | hr
                  · omega
                  · exact absurd ((header_algs_error_iff (p.take 8)).mpr hr)
                      (by rw [heqa]; rintro ⟨e, he⟩; cases he)
                  · omega
                  · omega
                  · omega
                  · omega
                  · omega
                  · rcases hr with ⟨a', b', c', ctrl', heqa', heqd', h24'⟩
                    rw [heqa] at heqa'
                    injection heqa' with heqa'
                    have ha1 : algs.1 = a' := by rw [heqa']
                    rw [← ha1] at heqd'
                    rw [heqd] at heqd'
                    injection heqd' with heqd'
                    exact h24' (heqd' ▸ (by omega : ctrl.length % 24 = 0))

/-- Claim C6 (amended): under decompressors that do not themselves fail,
`parse_bsdf2_header` fails exactly when the patch is shorter than 32 bytes,
the magic is unknown, a decoded header length is negative, the declared
`new_size` exceeds 2 GiB, `32 + |control| + |diff|` exceeds the patch length,
or the decompressed control stream is not a multiple of 24 bytes — and every
such failure is an `InvalidData` error. -/
theorem c6_header_validation_amended (dbz dbr : List Nat → Except ErrKind (List Nat))
    (hbz : ∀ d, ∃ r, dbz d = .ok r) (hbr : ∀ d, ∃ r, dbr d = .ok r)
    (p : List Nat) :
    ((∃ e, parse_bsdf2_header dbz dbr p = .error e) ↔ headerRejectCond dbz dbr p) ∧
    (∀ e, parse_bsdf2_header dbz dbr p = .error e → e = ErrKind.invalidData) := by
  constructor
  · constructor
    · rintro ⟨e, h⟩
      exact (parse_error_characterization dbz dbr hbz hbr p e h).1
    · intro hrhs
      cases hp : parse_bsdf2_header dbz dbr p with
      | ok v => exact absurd hrhs (parse_ok_characterization dbz dbr p v hp)
      | error e => exact ⟨e, rfl⟩
  · intro e h
    exact (parse_error_characterization dbz dbr hbz hbr p e h).2

/-- Witness for C6 (amended), at the empty patch. -/
theorem c6_header_validation_amended_witness :
    ∃ e, parse_bsdf2_header idDecompress idDecompress [] = .error e :=
  (c6_header_validation_amended idDecompress idDecompress
    (fun d => ⟨d, rfl⟩) (fun d => ⟨d, rfl⟩) []).1.mpr (Or.inl (by decide))

/-- Counterexample to C6 as stated: a 32-byte `BSDF2` patch with tags 0,
`len_control = len_diff = 0` and declared `new_size = 3 GiB` satisfies none
of the claim's reject conditions, yet parsing fails (`InvalidData`). -/
theorem c6_header_validation_counterexample :
    parse_bsdf2_header idDecompress idDecompress
        (BSDF2_MAGIC ++ [0, 0, 0] ++ offtout 0 ++ offtout 0 ++ offtout 3221225472) =
      .error ErrKind.invalidData ∧
    ¬ ((BSDF2_MAGIC ++ [0, 0, 0] ++ offtout 0 ++ offtout 0 ++
        offtout 3221225472).length < 32) ∧
    ((BSDF2_MAGIC ++ [0, 0, 0] ++ offtout 0 ++ offtout 0 ++
        offtout 3221225472).take 5 = BSDF2_MAGIC) ∧
    0 ≤ offtin (((BSDF2_MAGIC ++ [0, 0, 0] ++ offtout 0 ++ offtout 0 ++
        offtout 3221225472).drop 8).take 8) ∧
    0 ≤ offtin (((BSDF2_MAGIC ++ [0, 0, 0] ++ offtout 0 ++ offtout 0 ++
        offtout 3221225472).drop 16).take 8) ∧
    0 ≤ offtin (((BSDF2_MAGIC ++ [0, 0, 0] ++ offtout 0 ++ offtout 0 ++
        offtout 3221225472).drop 24).take 8) ∧
    ¬ ((BSDF2_MAGIC ++ [0, 0, 0] ++ offtout 0 ++ offtout 0 ++
        offtout 3221225472).length <
      32 + (offtin (((BSDF2_MAGIC ++ [0, 0, 0] ++ offtout 0 ++ offtout 0 ++
        offtout 3221225472).drop 8).take 8)).toNat +
        (offtin (((BSDF2_MAGIC ++ [0, 0, 0] ++ offtout 0 ++ offtout 0 ++
          offtout 3221225472).drop 16).take 8)).toNat) ∧
    (((BSDF2_MAGIC ++ [0, 0, 0] ++ offtout 0 ++ offtout 0 ++
        offtout 3221225472).drop 32).take
      (offtin (((BSDF2_MAGIC ++ [0, 0, 0] ++ offtout 0 ++ offtout 0 ++
        offtout 3221225472).drop 8).take 8)).toNat).length % 24 = 0 := by
  decide

/-- Claim C7 (amended): any at-least-32-byte patch whose header declares
`new_size` greater than 2 GiB is rejected, with an `InvalidData` error (the
code has no `ResourceExhausted` kind). -/
theorem c7_size_limit_error_kind_amended (dbz dbr : List Nat → Except ErrKind (List Nat))
    (p : List Nat) (hlen : 32 ≤ p.length)
    (hbig : MAX_NEW_SIZE < (offtin ((p.drop 24).take 8)).toNat) :
    parse_bsdf2_header dbz dbr p = .error ErrKind.invalidData := by
  rw [parse_bsdf2_header, if_neg (by omega)]
  cases heqa : header_algs (p.take 8) with
  | error e =>
    rw [header_algs_error_invalidData _ _ heqa]
  | ok algs =>
    simp only
    by_cases hneg : offtin ((p.drop 8).take 8) < 0 ∨ offtin ((p.drop 16).take 8) < 0 ∨
        offtin ((p.drop 24).take 8) < 0
    · rw [if_pos hneg]
    · rw [if_neg hneg, if_pos hbig]

/-- Witness for C7 (amended) at a concrete 3 GiB declaration. -/
theorem c7_size_limit_error_kind_amended_witness :
    parse_bsdf2_header idDecompress idDecompress
        (BSDIFF_MAGIC ++ offtout 0 ++ offtout 0 ++ offtout 3221225472) =
      .error ErrKind.invalidData :=
  c7_size_limit_error_kind_amended idDecompress idDecompress _ (by decide) (by decide)

/-- Counterexample to C7 as stated: at a declared `new_size` of 3 GiB the
parser fails with `InvalidData`, not `ResourceExhausted`. -/
theorem c7_size_limit_error_kind_counterexample :
    parse_bsdf2_header idDecompress idDecompress
        (BSDIFF_MAGIC ++ offtout 1 ++ offtout 0 ++ offtout 3221225472) =
      .error ErrKind.invalidData ∧
    ErrKind.invalidData ≠ ErrKind.resourceExhausted := by
  decide

/-- `usz` from `diff.rs`: `debug_assert!(i >= 0); i as usize`.  A negative
argument is a panic (in release builds the subsequent huge index panics
instead), modelled as `none`. -/
def usz (i : Int) : Option Nat := if 0 ≤ i then some i.toNat else none

/-- Indexing into an `isize` array; `none` models the bounds panic. -/
def lgetI (l : List Int) (i : Nat) : Option Int := l[i]?

/-- Writing into an `isize` array; `none` models the bounds panic. -/
def lsetI (l : List Int) (i : Nat) (v : Int) : Option (List Int) :=
  if i < l.length then some (l.set i v) else none

/-- `<[_]>::swap`; `none` models the bounds panic. -/
def lswap (l : List Int) (i j : Nat) : Option (List Int) := do
  let a ← l[i]?
  let b ← l[j]?
  let l1 ← lsetI l i b
  lsetI l1 j a

/-- The suffix slice `&old[i..]`; `none` models the slicing panic. -/
def sliceFrom (l : List Nat) (i : Nat) : Option (List Nat) :=
  if i ≤ l.length then some (l.drop i) else none

/-- The slice `&l[a..b]`; `none` models the slicing panic. -/
def sliceRange (l : List Nat) (a b : Nat) : Option (List Nat) :=
  if a ≤ b ∧ b ≤ l.length then some ((l.drop a).take (b - a)) else none

/-- `matchlen` from `diff.rs`: the number of leading equal bytes. -/
def matchlen : List Nat → List Nat → Nat
  | x :: xs, y :: ys => if x = y then matchlen xs ys + 1 else 0
  | _, _ => 0

/-- Lexicographic `<` on byte slices (`left[..len_to_check] < right[..len_to_check]`
in `search`; the compared slices have equal length). -/
def lexLt : List Nat → List Nat → Bool
  | [], [] => false
  | [], _ :: _ => true
  | _ :: _, [] => false
  | x :: xs, y :: ys => if x < y then true else if y < x then false else lexLt xs ys

/-- `search` from `diff.rs` (lines 260–281): binary search of the suffix
array for the best match.  The structural recursion on subslices is expressed
with fuel; `I.length + 1` fuel always suffices because each step strictly
shrinks the slice. -/
def search (old q : List Nat) : Nat → List Int → Option (Int × Nat)
  | 0, _ => none
  | fuel + 1, I =>
    if I.length < 3 then do
      let i0 ← lgetI I 0
      let ilast ← lgetI I (I.length - 1)
      let p0 ← usz i0
      let pl ← usz ilast
      let s0 ← sliceFrom old p0
      let sl ← sliceFrom old pl
      if matchlen s0 q > matchlen sl q then some (i0, matchlen s0 q)
      else some (ilast, matchlen sl q)
    else do
      let im ← lgetI I ((I.length - 1) / 2)
      let pm ← usz im
      let left ← sliceFrom old pm
      if lexLt (left.take (min left.length q.length)) (q.take (min left.length q.length)) then
        search old q fuel (I.drop ((I.length - 1) / 2))
      else
        search old q fuel (I.take ((I.length - 1) / 2 + 1))

/-- Bucket counting in `qsufsort` (`diff.rs` lines 179–184). -/
def bucketsCount (old : List Nat) : Option (List Int) :=
  old.foldlM (fun b o => do
    let v ← lgetI b o
    lsetI b o (v + 1)) (List.replicate 256 (0 : Int))

/-- Cumulative bucket positions (`for i in 1..256 buckets[i] += buckets[i-1]`). -/
def bucketsCumulative (b0 : List Int) : Option (List Int) :=
  (List.range' 1 255).foldlM (fun b i => do
    let v ← lgetI b i
    let w ← lgetI b (i - 1)
    lsetI b i (v + w)) b0

/-- Shift to start positions (`for i in (1..256).rev() buckets[i] = buckets[i-1];
buckets[0] = 0`). -/
def bucketsShift (b0 : List Int) : Option (List Int) := do
  let b ← (List.range' 1 255).reverse.foldlM (fun b i => do
    let w ← lgetI b (i - 1)
    lsetI b i w) b0
  lsetI b 0 0

/-- Place each suffix into its bucket (`diff.rs` lines 197–201), returning the
updated buckets and `I`. -/
def placeSuffixes (old : List Nat) (b0 I0 : List Int) : Option (List Int × List Int) :=
  old.enum.foldlM (fun (s : List Int × List Int) pair => do
    let v ← lgetI s.1 pair.2
    let b1 ← lsetI s.1 pair.2 (v + 1)
    let idx ← usz (v + 1)
    let I1 ← lsetI s.2 idx (pair.1 : Int)
    pure (b1, I1)) (b0, I0)

/-- Initialize `V` with bucket end positions (`diff.rs` lines 205–209). -/
def initV (old : List Nat) (b : List Int) (V0 : List Int) : Option (List Int) := do
  let V ← old.enum.foldlM (fun V pair => do
    let w ← lgetI b pair.2
    lsetI V pair.1 w) V0
  lsetI V old.length 0

/-- Mark singleton buckets with `-1` sentinels, and `I[0] = -1`
(`diff.rs` lines 211–217). -/
def markSingletons (b : List Int) (I0 : List Int) : Option (List Int) := do
  let I ← (List.range' 1 255).foldlM (fun I i => do
    let v ← lgetI b i
    let w ← lgetI b (i - 1)
    if v = w + 1 then do
      let idx ← usz v
      lsetI I idx (-1)
    else
      pure I) I0
  lsetI I 0 (-1)

/-- The `len < 16` branch of `split_internal` (`diff.rs` lines 67–96), with
fuel for the group loop (`k` advances by the data-dependent `j`).  The inner
selection scan is a bounded fold. -/
def splitSmallGo (hh : Nat) (start len : Nat) :
    Nat → Nat → List Int → List Int → Option (List Int × List Int)
  | 0, _, _, _ => none
  | fuel + 1, k, I, V =>
    if k < start + len then do
      let ik ← lgetI I k
      let idx0 ← usz (ik + (hh : Int))
      let x0 ← lgetI V idx0
      let res ← (List.range' 1 (start + len - k - 1)).foldlM
        (fun (s : Int × Nat × List Int) i => do
          let iki ← lgetI s.2.2 (k + i)
          let idx ← usz (iki + (hh : Int))
          let v ← lgetI V idx
          let x1 := if v < s.1 then v else s.1
          let j1 := if v < s.1 then 0 else s.2.1
          if v = x1 then do
            let I1 ← lswap s.2.2 (k + j1) (k + i)
            pure (x1, j1 + 1, I1)
          else
            pure (x1, j1, s.2.2))
        (x0, 1, I)
      let j := res.2.1
      let V1 ← ((res.2.2.drop k).take j).foldlM (fun V e => do
        let idx ← usz e
        lsetI V idx ((k + j : Nat) - 1 : Int)) V
      let I2 ← (if j = 1 then lsetI res.2.2 k (-1) else pure res.2.2)
      splitSmallGo hh start len fuel (k + j) I2 V1
    else
      some (I, V)

/-- Count elements below / equal to the pivot (`diff.rs` lines 101–114). -/
def splitCount (V : List Int) (hh : Nat) (x : Int) (Is : List Int) : Option (Nat × Nat) :=
  Is.foldlM (fun (s : Nat × Nat) e => do
    let idx ← usz (e + (hh : Int))
    let v ← lgetI V idx
    pure (if v < x then s.1 + 1 else s.1, if v = x then s.2 + 1 else s.2)) (0, 0)

/-- First partition loop of the large branch (`diff.rs` lines 116–132), with
fuel (`i` does not advance on swaps). -/
def splitPart1 (V : List Int) (hh : Nat) (x : Int) (jj kk : Nat) :
    Nat → Nat → Nat → Nat → List Int → Option (Nat × Nat × List Int)
  | 0, _, _, _, _ => none
  | fuel + 1, i, j, k, I =>
    if i < jj then do
      let ii ← lgetI I i
      let idx ← usz (ii + (hh : Int))
      let v ← lgetI V idx
      if v < x then splitPart1 V hh x jj kk fuel (i + 1) j k I
      else if v = x then do
        let I1 ← lswap I i (jj + j)
        splitPart1 V hh x jj kk fuel i (j + 1) k I1
      else do
        let I1 ← lswap I i (kk + k)
        splitPart1 V hh x jj kk fuel i j (k + 1) I1
    else some (j, k, I)

/-- Second partition loop of the large branch (`diff.rs` lines 134–141). -/
def splitPart2 (V : List Int) (hh : Nat) (x : Int) (jj kk : Nat) :
    Nat → Nat → Nat → List Int → Option (List Int)
  | 0, _, _, _ => none
  | fuel + 1, j, k, I =>
    if jj + j < kk then do
      let ii ← lgetI I (jj + j)
      let idx ← usz (ii + (hh : Int))
      let v ← lgetI V idx
      if v = x then splitPart2 V hh x jj kk fuel (j + 1) k I
      else do
        let I1 ← lswap I (jj + j) (kk + k)
        splitPart2 V hh x jj kk fuel j (k + 1) I1
    else some I

/-- `split` / `split_internal` (`diff.rs` lines 59–174): three-way partition
with recursion on the `<` partition and tail iteration on the `>` partition,
all under one fuel. -/
def splitGo (hh : Nat) : Nat → Nat → Nat → List Int → List Int → Option (List Int × List Int)
  | 0, _, _, _, _ => none
  | fuel + 1, start, len, I, V =>
    if len < 16 then
      splitSmallGo hh start len (fuel + 1) start I V
    else do
      let imid ← lgetI I (start + len / 2)
      let idx ← usz (imid + (hh : Int))
      let x ← lgetI V idx
      let cnt ← splitCount V hh x ((I.drop start).take len)
      let p1 ← splitPart1 V hh x (cnt.1 + start) (cnt.2 + cnt.1 + start) (fuel + 1) start 0 0 I
      let I2 ← splitPart2 V hh x (cnt.1 + start) (cnt.2 + cnt.1 + start) (fuel + 1)
        p1.1 p1.2.1 p1.2.2
      let s1 ← (if start < cnt.1 + start then splitGo hh fuel start (cnt.1 + start - start) I2 V
        else pure (I2, V))
      let V2 ← ((s1.1.drop (cnt.1 + start)).take (cnt.2 + cnt.1 + start - (cnt.1 + start))).foldlM
        (fun V e => do
          let idx2 ← usz e
          lsetI V idx2 ((cnt.2 + cnt.1 + start : Nat) - 1 : Int)) s1.2
      let I4 ← (if (cnt.1 + start : Int) = (cnt.2 + cnt.1 + start : Nat) - 1 then
          lsetI s1.1 (cnt.1 + start) (-1)
        else pure s1.1)
      if cnt.2 + cnt.1 + start < start + len then
        splitGo hh fuel (cnt.2 + cnt.1 + start) (start + len - (cnt.2 + cnt.1 + start)) I4 V2
      else
        pure (I4, V2)

/-- The group scan of one doubling round (`diff.rs` lines 222–240), with fuel:
coalesce resolved runs (negative entries) and `split` unresolved groups. -/
def qsufScanGo (n : Nat) (hh : Nat) : Nat → Int → Int → List Int → List Int →
    Option (List Int × List Int)
  | 0, _, _, _, _ => none
  | fuel + 1, i, len, I, V =>
    if i < (n : Int) + 1 then do
      let ii ← usz i
      let Ii ← lgetI I ii
      if Ii < 0 then
        qsufScanGo n hh fuel (i - Ii) (len - Ii) I V
      else do
        let I1 ← (if len ≠ 0 then do
            let idx ← usz (i - len)
            lsetI I idx (-len)
          else pure I)
        let Ii2 ← lgetI I1 ii
        let vidx ← usz Ii2
        let vv ← lgetI V vidx
        let istart ← usz i
        let slen ← usz (vv + 1 - i)
        let s ← splitGo hh fuel istart slen I1 V
        qsufScanGo n hh fuel (i + (vv + 1 - i)) 0 s.1 s.2
    else do
      let I1 ← (if len ≠ 0 then do
          let idx ← usz (i - len)
          lsetI I idx (-len)
        else pure I)
      some (I1, V)

/-- The doubling loop of `qsufsort` (`diff.rs` lines 219–242), with fuel. -/
def qsufLoopGo (n : Nat) : Nat → Nat → List Int → List Int → Option (List Int × List Int)
  | 0, _, _, _ => none
  | fuel + 1, hh, I, V => do
    let i0 ← lgetI I 0
    if i0 ≠ -((n : Int) + 1) then do
      let s ← qsufScanGo n hh fuel 0 0 I V
      qsufLoopGo n fuel (hh + hh) s.1 s.2
    else
      some (I, V)

/-- The final inversion `I[V[i]] = i` (`diff.rs` lines 244–247). -/
def qsufInvert (n : Nat) (I V : List Int) : Option (List Int) :=
  ((V.take (n + 1)).enum).foldlM (fun I pair => do
    let idx ← usz pair.2
    lsetI I idx (pair.1 : Int)) I

/-- `qsufsort` from `diff.rs` (lines 176–248): suffix array construction via
bucket sort plus doubling refinement. -/
def qsufsort (old : List Nat) (fuel : Nat) : Option (List Int × List Int) := do
  let b1 ← bucketsCount old
  let b2 ← bucketsCumulative b1
  let b3 ← bucketsShift b2
  let pI ← placeSuffixes old b3 (List.replicate (old.length + 1) (0 : Int))
  let I1 ← lsetI pI.2 0 (old.length : Int)
  let V1 ← initV old pI.1 (List.replicate (old.length + 1) (0 : Int))
  let I2 ← markSingletons pI.1 I1
  let s ← qsufLoopGo old.length fuel 1 I2 V1
  let I3 ← qsufInvert old.length s.1 s.2
  pure (I3, s.2)

/-- The overlap-scoring loop of the differ (lines 325–332), scoring byte
matches between `scsc` and `scan + len`.  `steps` is exactly the number of
remaining iterations, so this is total on the loop's own terms. -/
def scscGo (old newB : List Nat) (lastoffset : Int) (bound : Nat) :
    Nat → Nat → Nat → Option (Nat × Nat)
  | 0, scsc, oldscore => some (scsc, oldscore)
  | steps + 1, scsc, oldscore =>
    if scsc < bound then do
      let cond ← (if (scsc : Int) + lastoffset < (old.length : Int) then do
          let idx ← usz ((scsc : Int) + lastoffset)
          let ob ← old[idx]?
          let nb ← newB[scsc]?
          pure (ob == nb)
        else pure false)
      scscGo old newB lastoffset bound steps (scsc + 1)
        (if cond then oldscore + 1 else oldscore)
    else some (scsc, oldscore)

/-- The forward split-point sweep (`diff.rs` lines 351–366).  `steps` is the
exact iteration count `min (scan - lastscan) (old.length - lastpos)`. -/
def forwardGo (old newB : List Nat) (lastscan lastpos : Nat) :
    Nat → Nat → Int → Int → Nat → Option Nat
  | 0, _, _, _, lenf => some lenf
  | steps + 1, i, s, Sf, lenf => do
    let ob ← old[lastpos + i]?
    let nb ← newB[lastscan + i]?
    let s1 := if ob = nb then s + 1 else s
    if s1 * 2 - ((i + 1 : Nat) : Int) ≤ Sf * 2 - (lenf : Int) then
      forwardGo old newB lastscan lastpos steps (i + 1) s1 Sf lenf
    else
      forwardGo old newB lastscan lastpos steps (i + 1) s1 s1 (i + 1)

/-- The backward split-point sweep (`diff.rs` lines 368–384).  `steps` is the
exact iteration count `min (scan - lastscan) pos`, with `i` starting at 1. -/
def backwardGo (old newB : List Nat) (scan pos : Nat) :
    Nat → Nat → Int → Int → Nat → Option Nat
  | 0, _, _, _, lenb => some lenb
  | steps + 1, i, s, Sb, lenb => do
    let ob ← old[pos - i]?
    let nb ← newB[scan - i]?
    let s1 := if ob = nb then s + 1 else s
    if s1 * 2 - (i : Int) > Sb * 2 - (lenb : Int) then
      backwardGo old newB scan pos steps (i + 1) s1 s1 i
    else
      backwardGo old newB scan pos steps (i + 1) s1 Sb lenb

/-- The overlap-resolution scan (`diff.rs` lines 387–403): pick the split
offset `lens` maximizing equal-count difference.  (The underflow-free `Nat`
subtractions in the indices are exact here: `overlap ≤ lastscan + lenf`,
`lenb ≤ pos` and `lenb ≤ scan` hold whenever this loop is reached.) -/
def overlapGo (old newB : List Nat) (lastscan lastpos lenf scan pos lenb overlap : Nat) :
    Option Nat :=
  Option.map (fun st => st.2.2)
    ((List.range overlap).foldlM (fun (st : Int × Int × Nat) i => do
      let a1 ← newB[lastscan + lenf - overlap + i]?
      let a2 ← old[lastpos + lenf - overlap + i]?
      let s1 := if a1 = a2 then st.1 + 1 else st.1
      let b1 ← newB[scan - lenb + i]?
      let b2 ← old[pos - lenb + i]?
      let s2 := if b1 = b2 then s1 - 1 else s1
      if s2 > st.2.1 then pure (s2, s2, i + 1) else pure (s2, st.2.1, st.2.2))
      ((0 : Int), (0 : Int), (0 : Nat)))

/-- The match-finding inner loop of the differ (`diff.rs` lines 318–345), with
fuel.  Returns `(scan, len, pos, oldscore)` at the break or at end of input.
The `usize` decrement of `oldscore` is `none` on underflow (debug panic). -/
def innerGo (I : List Int) (old newB : List Nat) (lastoffset : Int) :
    Nat → Nat → Nat → Nat → Nat → Nat → Option (Nat × Nat × Nat × Nat)
  | 0, _, _, _, _, _ => none
  | fuel + 1, scan, scsc, oldscore, len, pos =>
    if scan < newB.length then do
      let sr ← search old (newB.drop scan) (I.length + 1) I
      let pos1 ← usz sr.1
      let r ← scscGo old newB lastoffset (scan + sr.2) (scan + sr.2 - scsc) scsc oldscore
      if (sr.2 = r.2 ∧ sr.2 ≠ 0) ∨ sr.2 > r.2 + 8 then
        some (scan, sr.2, pos1, r.2)
      else do
        let dec ← (if (scan : Int) + lastoffset < (old.length : Int) then do
            let idx ← usz ((scan : Int) + lastoffset)
            let ob ← old[idx]?
            let nb ← newB[scan]?
            pure (ob == nb)
          else pure false)
        let olds2 ← (if dec then (if r.2 = 0 then none else some (r.2 - 1))
          else some r.2)
        innerGo I old newB lastoffset fuel (scan + 1) r.1 olds2 sr.2 pos1
    else
      some (scan, len, pos, oldscore)

/-- State of the differ's outer loop (`diff.rs` lines 306–311). -/
structure DiffSt where
  scan : Nat
  len : Nat
  pos : Nat
  lastscan : Nat
  lastpos : Nat
  lastoffset : Int
  deriving DecidableEq, Repr

/-- The outer loop of `bsdiff_internal` (`diff.rs` lines 313–440), with fuel.
Returns the raw patch bytes emitted from the given state on: for each block
one 24-byte control tuple, then the diff bytes, then the extra bytes. -/
def outerGo (I : List Int) (old newB : List Nat) : Nat → DiffSt → Option (List Nat)
  | 0, _ => none
  | fuel + 1, st =>
    if st.scan < newB.length then do
      let r ← innerGo I old newB st.lastoffset (newB.length + 1)
        (st.scan + st.len) (st.scan + st.len) 0 st.len st.pos
      if r.2.1 = r.2.2.2 ∧ r.1 ≠ newB.length then
        outerGo I old newB fuel
          { st with scan := r.1, len := r.2.1, pos := r.2.2.1 }
      else do
        let lenf0 ← forwardGo old newB st.lastscan st.lastpos
          (min (r.1 - st.lastscan) (old.length - st.lastpos)) 0 0 0 0
        let lenb0 ← (if r.1 < newB.length then
            backwardGo old newB r.1 r.2.2.1 (min (r.1 - st.lastscan) r.2.2.1) 1 0 0 0
          else pure 0)
        let sl ← usub r.1 lenb0
        let fr ← (if sl < st.lastscan + lenf0 then do
            let lens ← overlapGo old newB st.lastscan st.lastpos lenf0 r.1 r.2.2.1 lenb0
              (st.lastscan + lenf0 - sl)
            let lenf1 ← usub (lenf0 + lens) (st.lastscan + lenf0 - sl)
            let lenb1 ← usub lenb0 lens
            pure (lenf1, lenb1)
          else pure (lenf0, lenb0))
        let newSl ← sliceRange newB st.lastscan (st.lastscan + fr.1)
        let oldSl ← sliceRange old st.lastpos (st.lastpos + fr.1)
        let sl2 ← usub r.1 fr.2
        let wlen ← usub sl2 (st.lastscan + fr.1)
        let extraB ← sliceRange newB (st.lastscan + fr.1) (st.lastscan + fr.1 + wlen)
        let lp' ← usub r.2.2.1 fr.2
        let restOut ← outerGo I old newB fuel
          { scan := r.1, len := r.2.1, pos := r.2.2.1,
            lastscan := sl2, lastpos := lp',
            lastoffset := (r.2.2.1 : Int) - (r.1 : Int) }
        some (offtout (fr.1 : Int) ++
          (offtout ((r.1 : Int) - (fr.2 : Int) - ((st.lastscan + fr.1 : Nat) : Int)) ++
          (offtout ((r.2.2.1 : Int) - (fr.2 : Int) - ((st.lastpos + fr.1 : Nat) : Int)) ++
          (List.zipWith wrappingSub8 newSl oldSl ++ (extraB ++ restOut)))))
    else
      some []

/-- `bsdiff_internal` from `diff.rs` (lines 295–443): build the suffix array,
then run the differ's outer loop from the initial state.  The result is the
raw patch stream consumed by the streaming applier `patch`. -/
def bsdiff_internal (old newB : List Nat) (fuel : Nat) : Option (List Nat) := do
  let qs ← qsufsort old fuel
  outerGo (qs.1.take (old.length + 1)) old newB fuel
    { scan := 0, len := 0, pos := 0, lastscan := 0, lastpos := 0, lastoffset := 0 }

theorem usub_eq_some {a b c : Nat} (h : usub a b = some c) : b ≤ a ∧ c = a - b := by
  rw [usub] at h
  split at h
  · injection h with h
    exact ⟨by assumption, h.symm⟩
  · cases h

theorem usz_eq_some {i : Int} {n : Nat} (h : usz i = some n) : 0 ≤ i ∧ n = i.toNat := by
  rw [usz] at h
  split at h
  · injection h with h
    exact ⟨by assumption, h.symm⟩
  · cases h

theorem sliceFrom_eq_some {l : List Nat} {i : Nat} {s : List Nat}
    (h : sliceFrom l i = some s) : i ≤ l.length ∧ s = l.drop i := by
  rw [sliceFrom] at h
  split at h
  · injection h with h
    exact ⟨by assumption, h.symm⟩
  · cases h

theorem sliceRange_eq_some {l : List Nat} {a b : Nat} {s : List Nat}
    (h : sliceRange l a b = some s) :
    a ≤ b ∧ b ≤ l.length ∧ s = (l.drop a).take (b - a) ∧ s.length = b - a := by
  rw [sliceRange] at h
  split at h
  · rename_i hc
    injection h with h
    refine ⟨hc.1, hc.2, h.symm, ?_⟩
    rw [← h, List.length_take, List.length_drop]
    omega
  · cases h

theorem matchlen_le_right : ∀ a b : List Nat, matchlen a b ≤ b.length := by
  intro a
  induction a with
  | nil => intro b; cases b <;> simp [matchlen]
  | cons x xs ih =>
    intro b
    cases b with
    | nil => simp [matchlen]
    | cons y ys =>
      rw [matchlen]
      split
      · have := ih ys
        simp only [List.length_cons]
        omega
      · simp

theorem search_spec (old q : List Nat) :
    ∀ fuel I p l, search old q fuel I = some (p, l) →
      0 ≤ p ∧ p.toNat ≤ old.length ∧ l ≤ q.length := by
  intro fuel
  induction fuel with
  | zero => intro I p l h; cases h
  | succ fuel ih =>
    intro I p l h
    rw [search] at h
    split at h
    · rcases Option.bind_eq_some.mp h with ⟨i0, hi0, h⟩
      rcases Option.bind_eq_some.mp h with ⟨ilast, hlast, h⟩
      rcases Option.bind_eq_some.mp h with ⟨p0, hp0, h⟩
      rcases Option.bind_eq_some.mp h with ⟨pl, hpl, h⟩
      rcases Option.bind_eq_some.mp h with ⟨s0, hs0, h⟩
      rcases Option.bind_eq_some.mp h with ⟨sl, hsl, h⟩
      rcases usz_eq_some hp0 with ⟨hge0, hp0v⟩
      rcases usz_eq_some hpl with ⟨hgel, hplv⟩
      rcases sliceFrom_eq_some hs0 with ⟨hb0, -⟩
      rcases sliceFrom_eq_some hsl with ⟨hbl, -⟩
      split at h
      · injection h with h
        injection h with h1 h2
        subst h1
        subst h2
        exact ⟨hge0, by omega, matchlen_le_right s0 q⟩
      · injection h with h
        injection h with h1 h2
        subst h1
        subst h2
        exact ⟨hgel, by omega, matchlen_le_right sl q⟩
    · rcases Option.bind_eq_some.mp h with ⟨im, him, h⟩
      rcases Option.bind_eq_some.mp h with ⟨pm, hpm, h⟩
      rcases Option.bind_eq_some.mp h with ⟨left, hleft, h⟩
      split at h
      · exact ih _ p l h
      · exact ih _ p l h

theorem innerGo_spec (I : List Int) (old newB : List Nat) (lo : Int) :
    ∀ fuel scan scsc olds len pos r,
      innerGo I old newB lo fuel scan scsc olds len pos = some r →
      scan ≤ newB.length → pos ≤ old.length →
      r.1 ≤ newB.length ∧ (r.1 < newB.length → r.1 + r.2.1 ≤ newB.length) ∧
        r.2.2.1 ≤ old.length := by
  intro fuel
  induction fuel with
  | zero => intro scan scsc olds len pos r h; cases h
  | succ fuel ih =>
    intro scan scsc olds len pos r h hscan hpos
    rw [innerGo] at h
    split at h
    · rename_i hlt
      rcases Option.bind_eq_some.mp h with ⟨sr, hsr, h⟩
      rcases Option.bind_eq_some.mp h with ⟨pos1, hpos1, h⟩
      rcases Option.bind_eq_some.mp h with ⟨r0, hr0, h⟩
      rcases search_spec old (newB.drop scan) _ _ sr.1 sr.2 hsr with ⟨hge, hle, hlen⟩
      rcases usz_eq_some hpos1 with ⟨-, hp1v⟩
      rw [List.length_drop] at hlen
      split at h
      · injection h with h
        subst h
        refine ⟨?_, fun hc => ?_, ?_⟩
        · show scan ≤ newB.length
          omega
        · have hc2 : scan < newB.length := hc
          show scan + sr.2 ≤ newB.length
          omega
        · show pos1 ≤ old.length
          omega
      · rcases Option.bind_eq_some.mp h with ⟨dec, hdec, h⟩
        rcases Option.bind_eq_some.mp h with ⟨olds2, holds2, h⟩
        exact ih (scan + 1) r0.1 olds2 sr.2 pos1 r h (by omega) (by omega)
    · injection h with h
      subst h
      exact ⟨hscan, by intro hc; omega, hpos⟩

theorem zip_sub_add (xs os : List Nat) (hx : ∀ b ∈ xs, b < 256)
    (hlen : xs.length = os.length) :
    List.zipWith wrappingAdd8 (List.zipWith wrappingSub8 xs os) os = xs := by
  induction xs generalizing os with
  | nil => simp
  | cons x xs ih =>
    cases os with
    | nil => cases hlen
    | cons o os =>
      simp only [List.zipWith]
      have hx0 : x < 256 := hx x (by simp)
      have hstep : wrappingAdd8 (wrappingSub8 x o) o = x := by
        rw [wrappingSub8, wrappingAdd8]
        omega
      rw [hstep, ih os (fun b hb => hx b (by simp [hb])) (by simpa using hlen)]

theorem take_chain (l : List Nat) (a b c : Nat) :
    l.take a ++ ((l.drop a).take b ++ (l.drop (a + b)).take c) = l.take (a + b + c) := by
  rw [List.take_add, List.take_add (l := l) (m := a) (n := b), List.append_assoc]

/-- One step of the streaming applier on a well-formed emitted block: a
24-byte control tuple followed by exactly `lenf` diff bytes and `wlen` extra
bytes.  The applier consumes the block and recurses with the advanced
state. -/
theorem patchGo_cons (old : List Nat) (fuel oldpos : Nat) (rest out diffB extraB : List Nat)
    (lenf wlen : Nat) (seek : Int)
    (hlenf : lenf < 2 ^ 63) (hwlen : wlen < 2 ^ 63)
    (hseek1 : -(2 ^ 63) < seek) (hseek2 : seek < 2 ^ 63)
    (hdlen : diffB.length = lenf) (helen : extraB.length = wlen)
    (hold : oldpos + lenf ≤ old.length)
    (holdp : oldpos + lenf < 2 ^ 63)
    (hnext1 : 0 ≤ (oldpos : Int) + lenf + seek)
    (hnext2 : (oldpos : Int) + lenf + seek < 2 ^ 63) :
    patchGo old (fuel + 1) oldpos
      (offtout lenf ++ (offtout wlen ++ (offtout seek ++ (diffB ++ (extraB ++ rest))))) out =
    patchGo old fuel (((oldpos : Int) + lenf + seek).toNat) rest
      (out ++ (List.zipWith wrappingAdd8 diffB ((old.drop oldpos).take lenf) ++ extraB)) := by
  have l1 := offtout_length (lenf : Int)
  have l2 := offtout_length (wlen : Int)
  have l3 := offtout_length seek
  have hlen24 : (offtout lenf ++ (offtout wlen ++ (offtout seek ++
      (diffB ++ (extraB ++ rest))))).length = 24 + (lenf + (wlen + rest.length)) := by
    simp [List.length_append, l1, l2, l3, hdlen, helen]
    omega
  have htake : ∀ R : List Nat, (offtout (lenf : Int) ++ (offtout (wlen : Int) ++
      (offtout seek ++ R))).take 24 =
      offtout (lenf : Int) ++ (offtout (wlen : Int) ++ offtout seek) := by
    intro R
    rw [List.take_append_eq_append_take, List.take_of_length_le (by omega), l1,
      List.take_append_eq_append_take, List.take_of_length_le (by omega), l2,
      List.take_append_eq_append_take, List.take_of_length_le (by omega), l3]
    have hR : R.take (24 - 8 - 8 - 8) = R.take 0 := by norm_num
    rw [hR, List.take_zero, List.append_nil]
  have hdrop : ∀ R : List Nat, (offtout (lenf : Int) ++ (offtout (wlen : Int) ++
      (offtout seek ++ R))).drop 24 = R := by
    intro R
    rw [List.drop_append_eq_append_drop, List.drop_of_length_le (by omega), l1,
      List.drop_append_eq_append_drop, List.drop_of_length_le (by omega), l2,
      List.drop_append_eq_append_drop, List.drop_of_length_le (by omega), l3]
    norm_num
  have hbuf1 : (offtout (lenf : Int) ++ (offtout (wlen : Int) ++ offtout seek)).take 8 =
      offtout (lenf : Int) := by
    rw [List.take_append_eq_append_take, List.take_of_length_le (by omega), l1]
    norm_num
  have hbuf2 : ((offtout (lenf : Int) ++ (offtout (wlen : Int) ++ offtout seek)).drop 8).take 8 =
      offtout (wlen : Int) := by
    rw [List.drop_append_eq_append_drop, List.drop_of_length_le (by omega), l1]
    norm_num [List.take_append_eq_append_take, List.take_of_length_le, l2]
  have hbuf3 : (offtout (lenf : Int) ++ (offtout (wlen : Int) ++ offtout seek)).drop 16 =
      offtout seek := by
    rw [List.drop_append_eq_append_drop, List.drop_of_length_le (by omega), l1]
    norm_num [List.drop_append_eq_append_drop, List.drop_of_length_le, l2]
  have ho1 : offtin (offtout (lenf : Int)) = (lenf : Int) :=
    offtin_offtout _ (by omega) (by omega)
  have ho2 : offtin (offtout (wlen : Int)) = (wlen : Int) :=
    offtin_offtout _ (by omega) (by omega)
  have ho3 : offtin (offtout seek) = seek := offtin_offtout _ hseek1 hseek2
  have htn1 : ((lenf : Int)).toNat = lenf := by omega
  have htn2 : ((wlen : Int)).toNat = wlen := by omega
  have hraw : (diffB ++ (extraB ++ rest)).take (lenf + wlen) = diffB ++ extraB := by
    rw [List.take_append_eq_append_take, List.take_of_length_le (by omega), hdlen,
      List.take_append_eq_append_take, List.take_of_length_le (by omega), helen]
    rw [show lenf + wlen - lenf - wlen = 0 by omega, List.take_zero, List.append_nil]
  have hrawdrop : (diffB ++ (extraB ++ rest)).drop (lenf + wlen) = rest := by
    rw [List.drop_append_eq_append_drop, List.drop_of_length_le (by omega), hdlen,
      List.drop_append_eq_append_drop, List.drop_of_length_le (by omega), helen]
    rw [show lenf + wlen - lenf - wlen = 0 by omega, List.drop_zero]
    simp
  have hdtake : (diffB ++ extraB).take lenf = diffB := by
    rw [List.take_append_eq_append_take, List.take_of_length_le (by omega), hdlen]
    rw [show lenf - lenf = 0 by omega, List.take_zero, List.append_nil]
  have hddrop : (diffB ++ extraB).drop lenf = extraB := by
    rw [List.drop_append_eq_append_drop, List.drop_of_length_le (by omega), hdlen]
    rw [show lenf - lenf = 0 by omega, List.drop_zero]
    simp
  have hu : usizeAsI64 (oldpos + lenf) = ((oldpos + lenf : Nat) : Int) := by
    rw [usizeAsI64, if_pos (by omega)]
  have hca : i64CheckedAdd ((oldpos + lenf : Nat) : Int) seek =
      some ((oldpos : Int) + lenf + seek) := by
    rw [i64CheckedAdd, if_pos (by push_cast; omega)]
    push_cast
    ring_nf
  rw [patchGo]
  rw [if_neg (by omega), if_neg (by omega)]
  rw [htake, hdrop, hbuf1, hbuf2, hbuf3, ho1, ho2, ho3, htn1, htn2]
  rw [if_neg (by omega)]
  rw [hraw]
  rw [if_neg (by simp [List.length_append, hdlen, helen])]
  rw [if_neg (by omega)]
  rw [hu]
  split
  · rename_i heq
    rw [hca] at heq
    cases heq
  · rename_i newOldpos heq
    rw [hca] at heq
    injection heq with heq
    subst heq
    rw [if_neg (by omega)]
    rw [hrawdrop, hdtake, hddrop]

/-- Members of a slice are members of the list. -/
theorem mem_of_mem_take_drop {b : Nat} {l : List Nat} {a k : Nat}
    (h : b ∈ (l.drop a).take k) : b ∈ l :=
  List.mem_of_mem_drop (List.mem_of_mem_take h)

/-- The differ/applier simulation: whenever the differ's outer loop completes
from a state satisfying the loop invariants, the streaming applier replays the
emitted bytes from the matching state and reconstructs exactly `newB`. -/
theorem outer_roundtrip (I : List Int) (old newB : List Nat)
    (hbytes : ∀ b ∈ newB, b < 256)
    (holdlen : old.length < 2 ^ 62) (hnewlen : newB.length < 2 ^ 62) :
    ∀ fuel st rest, outerGo I old newB fuel st = some rest →
      st.scan ≤ newB.length →
      (st.scan < newB.length → st.scan + st.len ≤ newB.length) →
      (st.scan = newB.length → st.lastscan = newB.length) →
      st.pos ≤ old.length → st.lastpos ≤ old.length →
      ∀ pfuel, rest.length / 24 < pfuel →
        patchGo old pfuel st.lastpos rest (newB.take st.lastscan) = .ok newB := by
  intro fuel
  induction fuel with
  | zero => intro st rest h; cases h
  | succ fuel ih =>
    intro st rest h h1 h2 h3 h4 h5 pfuel hpf
    rw [outerGo] at h
    split at h
    · rename_i hguard
      rcases Option.bind_eq_some.mp h with ⟨r, hr, h⟩
      obtain ⟨hr1, hr2, hr3⟩ := innerGo_spec I old newB st.lastoffset _ _ _ _ _ _ r hr
        (h2 hguard) h4
      split at h
      · rename_i hcont
        exact ih _ rest h hr1 hr2 (fun heq => absurd heq hcont.2) hr3 h5 pfuel hpf
      · rename_i hcont
        rcases Option.bind_eq_some.mp h with ⟨lenf0, hlenf0, h⟩
        rcases Option.bind_eq_some.mp h with ⟨lenb0, hlenb0, h⟩
        rcases Option.bind_eq_some.mp h with ⟨sl, hsl, h⟩
        rcases Option.bind_eq_some.mp h with ⟨fr, hfr, h⟩
        rcases Option.bind_eq_some.mp h with ⟨newSl, hnewSl, h⟩
        rcases Option.bind_eq_some.mp h with ⟨oldSl, holdSl, h⟩
        rcases Option.bind_eq_some.mp h with ⟨sl2, hsl2, h⟩
        rcases Option.bind_eq_some.mp h with ⟨wlen, hwlen, h⟩
        rcases Option.bind_eq_some.mp h with ⟨extraB, hextraB, h⟩
        rcases Option.bind_eq_some.mp h with ⟨lp2, hlp2, h⟩
        rcases Option.bind_eq_some.mp h with ⟨restOut, hrestOut, h⟩
        injection h with h
        subst h
        rcases usub_eq_some hsl with ⟨hsl_le, hsl_v⟩
        have hfr2le : fr.2 ≤ lenb0 := by
          split at hfr
          · rcases Option.bind_eq_some.mp hfr with ⟨lens, hlens, hfr⟩
            rcases Option.bind_eq_some.mp hfr with ⟨lenf1, hlenf1, hfr⟩
            rcases Option.bind_eq_some.mp hfr with ⟨lenb1, hlenb1, hfr⟩
            injection hfr with hfr
            rcases usub_eq_some hlenb1 with ⟨hle, hv⟩
            rw [← hfr]
            omega
          · injection hfr with hfr
            rw [← hfr]
        have hF2 : r.1 = newB.length → fr.2 = 0 := by
          intro heq
          have hlb0 : lenb0 = 0 := by
            rw [if_neg (by omega)] at hlenb0
            injection hlenb0 with hlenb0
            exact hlenb0.symm
          omega
        rcases sliceRange_eq_some hnewSl with ⟨-, hnsB, hnsV, hnsL⟩
        rcases sliceRange_eq_some holdSl with ⟨-, holB, holV, holL⟩
        have e1 : st.lastscan + fr.1 - st.lastscan = fr.1 := by omega
        rw [e1] at hnsV hnsL
        have e2 : st.lastpos + fr.1 - st.lastpos = fr.1 := by omega
        rw [e2] at holV holL
        rcases usub_eq_some hsl2 with ⟨hsl2_le, hsl2_v⟩
        rcases usub_eq_some hwlen with ⟨hwlen_le, hwlen_v⟩
        rcases sliceRange_eq_some hextraB with ⟨-, hexB, hexV, hexL⟩
        have e3 : st.lastscan + fr.1 + wlen - (st.lastscan + fr.1) = wlen := by omega
        rw [e3] at hexV hexL
        rcases usub_eq_some hlp2 with ⟨hlp2_le, hlp2_v⟩
        cases pfuel with
        | zero => exact absurd hpf (by omega)
        | succ pf =>
          have hrlen : (offtout (fr.1 : Int) ++
              (offtout ((r.1 : Int) - (fr.2 : Int) - ((st.lastscan + fr.1 : Nat) : Int)) ++
              (offtout ((r.2.2.1 : Int) - (fr.2 : Int) - ((st.lastpos + fr.1 : Nat) : Int)) ++
              (List.zipWith wrappingSub8 newSl oldSl ++ (extraB ++ restOut))))).length =
              24 + (fr.1 + (wlen + restOut.length)) := by
            simp [List.length_append, offtout_length, List.length_zipWith, hnsL, holL, hexL]
            omega
          have hw : ((r.1 : Int) - (fr.2 : Int) - ((st.lastscan + fr.1 : Nat) : Int)) =
              ((wlen : Nat) : Int) := by
            push_cast
            omega
          rw [hw]
          have hseq : patchGo old (pf + 1) st.lastpos
              (offtout (fr.1 : Int) ++ (offtout ((wlen : Nat) : Int) ++
                (offtout ((r.2.2.1 : Int) - (fr.2 : Int) - ((st.lastpos + fr.1 : Nat) : Int)) ++
                (List.zipWith wrappingSub8 newSl oldSl ++ (extraB ++ restOut)))))
              (newB.take st.lastscan) =
              patchGo old pf (((st.lastpos : Int) + fr.1 +
                ((r.2.2.1 : Int) - (fr.2 : Int) - ((st.lastpos + fr.1 : Nat) : Int))).toNat)
                restOut
              (newB.take st.lastscan ++ (List.zipWith wrappingAdd8
                (List.zipWith wrappingSub8 newSl oldSl)
                ((old.drop st.lastpos).take fr.1) ++ extraB)) := by
            refine patchGo_cons old pf st.lastpos restOut (newB.take st.lastscan)
              (List.zipWith wrappingSub8 newSl oldSl) extraB fr.1 wlen _
              (by omega) (by omega) (by push_cast; omega) (by push_cast; omega)
              (by simp [List.length_zipWith, hnsL, holL]) hexL (by omega) (by omega)
              (by push_cast; omega) (by push_cast; omega)
          refine hseq.trans ?_
          rw [← holV]
          rw [zip_sub_add newSl oldSl
            (fun b hb => hbytes b (mem_of_mem_take_drop (hnsV ▸ hb)))
            (by omega)]
          rw [hnsV, hexV, take_chain]
          have e4 : st.lastscan + fr.1 + wlen = sl2 := by omega
          rw [e4]
          have e5 : (((st.lastpos : Int) + fr.1 +
              ((r.2.2.1 : Int) - (fr.2 : Int) - ((st.lastpos + fr.1 : Nat) : Int))).toNat) =
              lp2 := by
            push_cast
            omega
          rw [e5]
          have hrest_fuel : restOut.length / 24 < pf := by
            rw [hrlen] at hpf
            omega
          exact ih ⟨r.1, r.2.1, r.2.2.1, sl2, lp2, (r.2.2.1 : Int) - (r.1 : Int)⟩
            restOut hrestOut hr1 hr2
            (fun heq => by
              have heq2 : r.1 = newB.length := heq
              have h0 := hF2 heq2
              show sl2 = newB.length
              omega)
            hr3
            (by
              show lp2 ≤ old.length
              omega)
            pf hrest_fuel
    · rename_i hguard
      injection h with h
      subst h
      have hls : st.lastscan = newB.length := h3 (by omega)
      cases pfuel with
      | zero => exact absurd hpf (by omega)
      | succ pf =>
        rw [patchGo]
        rw [if_pos (show ([] : List Nat).length = 0 by rfl)]
        rw [hls, List.take_length]

/-- Claim C1: the round trip.  Whenever `bsdiff_internal` produces a patch,
applying it to `old` with the streaming applier `patch` succeeds and the
output buffer equals `new` exactly.  The length bounds reflect the claim's
2 GiB limit (any sizes below `2^62` are admitted), and `new` consists of
bytes. -/
theorem c1_diff_patch_roundtrip (old newB : List Nat) (fuel : Nat) (p : List Nat)
    (hbytes : ∀ b ∈ newB, b < 256)
    (holdlen : old.length < 2 ^ 62) (hnewlen : newB.length < 2 ^ 62)
    (h : bsdiff_internal old newB fuel = some p) :
    patch old p = .ok newB := by
  rw [bsdiff_internal] at h
  rcases Option.bind_eq_some.mp h with ⟨qs, hqs, hout⟩
  rw [patch]
  exact outer_roundtrip (qs.1.take (old.length + 1)) old newB hbytes holdlen hnewlen
    fuel ⟨0, 0, 0, 0, 0, 0⟩ p hout
    (by show (0 : Nat) ≤ newB.length; omega)
    (by intro h0; show 0 + 0 ≤ newB.length; omega)
    (by intro heq; show (0 : Nat) = newB.length; exact heq)
    (by show (0 : Nat) ≤ old.length; omega)
    (by show (0 : Nat) ≤ old.length; omega)
    (p.length / 24 + 1) (by omega)

/-- Claim C8 (amended): for every non-empty `old` and empty `new`, whenever
the differ completes it emits nothing at all — the raw patch output is the
empty byte string (no control tuple), not a single zero-length tuple. -/
theorem c8_empty_new_amended (old : List Nat) (fuel : Nat) (p : List Nat)
    (_hne : old ≠ []) (h : bsdiff_internal old [] fuel = some p) : p = [] := by
  rw [bsdiff_internal] at h
  rcases Option.bind_eq_some.mp h with ⟨qs, hqs, hout⟩
  cases fuel with
  | zero => cases hout
  | succ fuel =>
    rw [outerGo] at hout
    rw [if_neg (by decide)] at hout
    injection hout with hout
    exact hout.symm

set_option maxRecDepth 1000000

set_option maxHeartbeats 8000000

/-- Setting an entry of a list to the value it already holds leaves the list
unchanged. -/
theorem set_of_getElem {α : Type} :
    ∀ (l : List α) (i : Nat) (v : α), l[i]? = some v → l.set i v = l
  | [], _, _, h => by simp at h
  | a :: t, 0, v, h => by
      simp only [List.getElem?_cons_zero, Option.some.injEq] at h
      simp [h]
  | a :: t, i + 1, v, h => by
      simp only [List.getElem?_cons_succ] at h
      simpa using set_of_getElem t i v h

/-- An in-place write of the value already present succeeds and is the
identity. -/
theorem lsetI_unchanged {L : List Int} {i : Nat} {v : Int}
    (h : lgetI L i = some v) : lsetI L i v = some L := by
  rw [lgetI] at h
  have hlen : i < L.length := by
    by_contra hc
    rw [List.getElem?_eq_none (by omega)] at h
    cases h
  rw [lsetI, if_pos hlen, set_of_getElem L i v h]

/-- A monadic fold over `Option` whose every step returns the accumulator
unchanged is the identity. -/
theorem foldlM_option_skip {α β : Type} (f : β → α → Option β) (b : β) :
    ∀ xs : List α, (∀ x ∈ xs, f b x = some b) → List.foldlM f b xs = some b := by
  intro xs
  induction xs with
  | nil => intro _; rfl
  | cons x xs ih =>
      intro h
      rw [List.foldlM_cons, h x (List.mem_cons_self x xs)]
      show List.foldlM f b xs = some b
      exact ih fun y hy => h y (List.mem_cons_of_mem x hy)

/-- A monadic fold over `Option` along a contiguous index range that follows a
state trace `g`. -/
theorem foldlM_option_steps {β : Type} (f : β → Nat → Option β) (g : Nat → β) :
    ∀ (n a : Nat), (∀ k, a ≤ k → k < a + n → f (g k) k = some (g (k + 1))) →
      List.foldlM f (g a) (List.range' a n) = some (g (a + n)) := by
  intro n
  induction n with
  | zero => intro a _; rfl
  | succ m ih =>
      intro a h
      rw [List.range'_succ, List.foldlM_cons, h a (Nat.le_refl a) (by omega)]
      show List.foldlM f (g (a + 1)) (List.range' (a + 1) m) = some (g (a + (m + 1)))
      have hm := ih (a + 1) (fun k hk1 hk2 => h k (by omega) (by omega))
      have he : a + 1 + m = a + (m + 1) := by omega
      rw [he] at hm
      exact hm

/-- The bucket table after counting the single byte `97`. -/
def bktCount97 : List Int := List.replicate 97 0 ++ 1 :: List.replicate 158 0

/-- The cumulative bucket table once entries up to `k` have been processed
(for `97 ≤ k ≤ 255`): ones exactly at positions `97..k`. -/
def cumTable (k : Nat) : List Int :=
  List.replicate 97 0 ++ List.replicate (k - 96) 1 ++ List.replicate (255 - k) 0

/-- The fully cumulated bucket table for `old = [97]`. -/
def cumFinal : List Int := List.replicate 97 0 ++ List.replicate 159 1

/-- The shifted bucket table for `old = [97]`. -/
def shiftFinal : List Int := List.replicate 98 0 ++ List.replicate 158 1

theorem bktCount97_get_lo {x : Nat} (h : x < 97) : lgetI bktCount97 x = some 0 := by
  rw [lgetI, bktCount97, List.getElem?_append, List.length_replicate, if_pos h,
    List.getElem?_replicate, if_pos h]

theorem bktCount97_get_at : lgetI bktCount97 97 = some 1 := by
  rw [lgetI, bktCount97, List.getElem?_append, List.length_replicate,
    if_neg (by omega)]
  simp

theorem cumTable_length (k : Nat) (h1 : 97 ≤ k) (h2 : k ≤ 255) :
    (cumTable k).length = 256 := by
  simp [cumTable]
  omega

theorem cumTable_get_gap {k x : Nat} (h1 : 97 ≤ k) (h2 : k < x) (h3 : x < 256) :
    lgetI (cumTable k) x = some 0 := by
  rw [lgetI, cumTable, List.append_assoc, List.getElem?_append, List.length_replicate,
    if_neg (by omega), List.getElem?_append, List.length_replicate, if_neg (by omega),
    List.getElem?_replicate, if_pos (by omega)]

theorem cumTable_get_one {k x : Nat} (h1 : 97 ≤ x) (h2 : x ≤ k) (h3 : k ≤ 255) :
    lgetI (cumTable k) x = some 1 := by
  rw [lgetI, cumTable, List.append_assoc, List.getElem?_append, List.length_replicate,
    if_neg (by omega), List.getElem?_append, List.length_replicate, if_pos (by omega),
    List.getElem?_replicate, if_pos (by omega)]

theorem cumFinal_get_lo {x : Nat} (h : x < 97) : lgetI cumFinal x = some 0 := by
  rw [lgetI, cumFinal, List.getElem?_append, List.length_replicate, if_pos h,
    List.getElem?_replicate, if_pos h]

theorem cumFinal_get_hi {x : Nat} (h1 : 97 ≤ x) (h2 : x < 256) :
    lgetI cumFinal x = some 1 := by
  rw [lgetI, cumFinal, List.getElem?_append, List.length_replicate, if_neg (by omega),
    List.getElem?_replicate, if_pos (by omega)]

theorem shiftFinal_get_lo {x : Nat} (h : x < 98) : lgetI shiftFinal x = some 0 := by
  rw [lgetI, shiftFinal, List.getElem?_append, List.length_replicate, if_pos h,
    List.getElem?_replicate, if_pos h]

theorem shiftFinal_get_hi {x : Nat} (h1 : 98 ≤ x) (h2 : x < 256) :
    lgetI shiftFinal x = some 1 := by
  rw [lgetI, shiftFinal, List.getElem?_append, List.length_replicate, if_neg (by omega),
    List.getElem?_replicate, if_pos (by omega)]

/-- One changing step of the cumulative loop: position `k` (for `98 ≤ k ≤ 255`)
receives `0 + 1 = 1`. -/
theorem cum_step (k : Nat) (h1 : 98 ≤ k) (h2 : k < 256) :
    (do
      let v ← lgetI (cumTable (k - 1)) k
      let w ← lgetI (cumTable (k - 1)) (k - 1)
      lsetI (cumTable (k - 1)) k (v + w)) = some (cumTable k) := by
  refine Option.bind_eq_some.mpr ⟨0, cumTable_get_gap (by omega) (by omega) h2, ?_⟩
  refine Option.bind_eq_some.mpr ⟨1, cumTable_get_one (by omega) (by omega) (by omega), ?_⟩
  rw [lsetI, if_pos (by rw [cumTable_length (k - 1) (by omega) (by omega)]; omega)]
  have hset : (cumTable (k - 1)).set k (0 + 1) = cumTable k := by
    rw [cumTable, cumTable, List.set_append, List.length_append, List.length_replicate,
      List.length_replicate, if_neg (by omega)]
    have hk1 : k - 1 - 96 = k - 97 := by omega
    have hk2 : 255 - (k - 1) = (255 - k) + 1 := by omega
    rw [hk1, hk2]
    have hk3 : k - (97 + (k - 97)) = 0 := by omega
    have hk4 : k - 96 = (k - 97) + 1 := by omega
    rw [hk3, hk4, List.replicate_succ (0 : Int) (255 - k), List.set_cons_zero,
      List.replicate_succ' (k - 97) (1 : Int)]
    simp
  rw [hset]

/-- The cumulative loop on the counted table for `old = [97]`. -/
theorem bucketsCumulative_97 : bucketsCumulative bktCount97 = some cumFinal := by
  rw [bucketsCumulative]
  have hsplit : List.range' 1 255 = List.range' 1 97 ++ List.range' 98 158 := by decide
  rw [hsplit, List.foldlM_append]
  refine Option.bind_eq_some.mpr ⟨bktCount97, foldlM_option_skip _ _ _ ?_, ?_⟩
  · intro x hx
    rcases List.mem_range'_1.mp hx with ⟨hx1, hx2⟩
    by_cases h97 : x = 97
    · subst h97
      refine Option.bind_eq_some.mpr ⟨1, bktCount97_get_at, ?_⟩
      refine Option.bind_eq_some.mpr ⟨0, bktCount97_get_lo (by omega), ?_⟩
      exact lsetI_unchanged bktCount97_get_at
    · refine Option.bind_eq_some.mpr ⟨0, bktCount97_get_lo (by omega), ?_⟩
      refine Option.bind_eq_some.mpr ⟨0, bktCount97_get_lo (by omega), ?_⟩
      exact lsetI_unchanged (bktCount97_get_lo (by omega))
  · have hstart : bktCount97 = cumTable 97 := by
      simp [bktCount97, cumTable]
    rw [hstart]
    have hstep : ∀ k, 98 ≤ k → k < 98 + 158 →
        (do
          let v ← lgetI (cumTable (k - 1)) k
          let w ← lgetI (cumTable (k - 1)) (k - 1)
          lsetI (cumTable (k - 1)) k (v + w)) = some (cumTable (k + 1 - 1)) := by
      intro k hk1 hk2
      have hs := cum_step k hk1 (by omega)
      simpa using hs
    have hsteps := foldlM_option_steps
      (fun b i => do
        let v ← lgetI b i
        let w ← lgetI b (i - 1)
        lsetI b i (v + w))
      (fun k => cumTable (k - 1)) 158 98 hstep
    simpa [cumTable, cumFinal] using hsteps

/-- The shifting loop on the cumulated table for `old = [97]`, including the
final `buckets[0] = 0` write. -/
theorem bucketsShift_97 : bucketsShift cumFinal = some shiftFinal := by
  rw [bucketsShift]
  refine Option.bind_eq_some.mpr ⟨shiftFinal, ?_, lsetI_unchanged (shiftFinal_get_lo (by omega))⟩
  have hsplit : List.range' 1 255 = List.range' 1 96 ++ (97 :: List.range' 98 158) := by
    decide
  rw [hsplit, List.reverse_append, List.reverse_cons, List.foldlM_append]
  refine Option.bind_eq_some.mpr ⟨shiftFinal, ?_, ?_⟩
  · rw [List.foldlM_append]
    refine Option.bind_eq_some.mpr ⟨cumFinal, foldlM_option_skip _ _ _ ?_, ?_⟩
    · intro x hx
      rcases List.mem_range'_1.mp (List.mem_reverse.mp hx) with ⟨hx1, hx2⟩
      refine Option.bind_eq_some.mpr ⟨1, cumFinal_get_hi (by omega) (by omega), ?_⟩
      exact lsetI_unchanged (cumFinal_get_hi (by omega) (by omega))
    · rw [List.foldlM_cons]
      refine Option.bind_eq_some.mpr ⟨shiftFinal, ?_, ?_⟩
      · refine Option.bind_eq_some.mpr ⟨0, cumFinal_get_lo (by omega), ?_⟩
        rw [lsetI, if_pos (by simp [cumFinal])]
        have hset : cumFinal.set 97 0 = shiftFinal := by
          rw [cumFinal, shiftFinal, List.set_append, List.length_replicate,
            if_neg (by omega)]
          rw [show (159 : Nat) = 158 + 1 from rfl, List.replicate_succ (1 : Int) 158,
            show (97 : Nat) - 97 = 0 from rfl, List.set_cons_zero,
            show (98 : Nat) = 97 + 1 from rfl, List.replicate_succ' 97 (0 : Int)]
          simp
        rw [hset]
      · rfl
  · exact foldlM_option_skip _ _ _ fun x hx => by
      rcases List.mem_range'_1.mp (List.mem_reverse.mp hx) with ⟨hx1, hx2⟩
      refine Option.bind_eq_some.mpr ⟨0, shiftFinal_get_lo (by omega), ?_⟩
      exact lsetI_unchanged (shiftFinal_get_lo (by omega))

/-- The singleton-marking loop for `old = [97]`: only bucket `97` is a
singleton, so `I[1]` and then `I[0]` receive `-1`. -/
theorem markSingletons_97 : markSingletons cumFinal [1, 0] = some [-1, -1] := by
  rw [markSingletons]
  refine Option.bind_eq_some.mpr ⟨[1, -1], ?_, by decide⟩
  have hsplit : List.range' 1 255 = List.range' 1 96 ++ (97 :: List.range' 98 158) := by
    decide
  rw [hsplit, List.foldlM_append]
  refine Option.bind_eq_some.mpr ⟨[1, 0], foldlM_option_skip _ _ _ ?_, ?_⟩
  · intro x hx
    rcases List.mem_range'_1.mp hx with ⟨hx1, hx2⟩
    refine Option.bind_eq_some.mpr ⟨0, cumFinal_get_lo (by omega), ?_⟩
    refine Option.bind_eq_some.mpr ⟨0, cumFinal_get_lo (by omega), ?_⟩
    rw [if_neg (by norm_num)]
    rfl
  · rw [List.foldlM_cons]
    refine Option.bind_eq_some.mpr ⟨[1, -1], ?_, ?_⟩
    · refine Option.bind_eq_some.mpr ⟨1, cumFinal_get_hi (by omega) (by omega), ?_⟩
      refine Option.bind_eq_some.mpr ⟨0, cumFinal_get_lo (by omega), ?_⟩
      rw [if_pos (by norm_num)]
      decide
    · exact foldlM_option_skip _ _ _ fun x hx => by
        rcases List.mem_range'_1.mp hx with ⟨hx1, hx2⟩
        refine Option.bind_eq_some.mpr ⟨1, cumFinal_get_hi (by omega) (by omega), ?_⟩
        refine Option.bind_eq_some.mpr ⟨1, cumFinal_get_hi (by omega) (by omega), ?_⟩
        rw [if_neg (by norm_num)]
        rfl

/-- The suffix-array construction on the one-byte input `[97]`. -/
theorem qsufsort_97 : qsufsort [97] 64 = some ([1, 0], [1, 0]) := by
  rw [qsufsort]
  refine Option.bind_eq_some.mpr ⟨bktCount97, by decide, ?_⟩
  refine Option.bind_eq_some.mpr ⟨cumFinal, bucketsCumulative_97, ?_⟩
  refine Option.bind_eq_some.mpr ⟨shiftFinal, bucketsShift_97, ?_⟩
  refine Option.bind_eq_some.mpr ⟨(cumFinal, [0, 0]), by decide, ?_⟩
  refine Option.bind_eq_some.mpr ⟨[1, 0], by decide, ?_⟩
  refine Option.bind_eq_some.mpr ⟨[1, 0], by decide, ?_⟩
  refine Option.bind_eq_some.mpr ⟨[-1, -1], markSingletons_97, ?_⟩
  refine Option.bind_eq_some.mpr ⟨([-2, -1], [1, 0]), by decide, ?_⟩
  refine Option.bind_eq_some.mpr ⟨[1, 0], by decide, ?_⟩
  rfl

/-- Concrete evaluation of the differ: a one-byte `old` against an empty
`new` emits no bytes at all. -/
theorem bsdiff_one_byte_old_empty_new : bsdiff_internal [97] [] 64 = some [] := by
  rw [bsdiff_internal]
  refine Option.bind_eq_some.mpr ⟨([1, 0], [1, 0]), qsufsort_97, ?_⟩
  decide

/-- Counterexample to C8 as stated: for `old = [97]`, `new = []` the raw
patch output is empty — zero control tuples, not a single zero-length
24-byte tuple. -/
theorem c8_empty_new_counterexample :
    bsdiff_internal [97] [] 64 = some [] ∧ ([] : List Nat).length ≠ 24 :=
  ⟨bsdiff_one_byte_old_empty_new, by decide⟩

/-- Witness for C8 (amended) at `old = [97]`. -/
theorem c8_empty_new_amended_witness :
    ([97] : List Nat) ≠ [] ∧ ([] : List Nat) = [] :=
  ⟨by decide, c8_empty_new_amended [97] 64 [] (by decide) bsdiff_one_byte_old_empty_new⟩

/-- Witness for C1: the round trip at `old = [97]`, `new = []`, whose patch
is empty. -/
theorem c1_diff_patch_roundtrip_witness :
    patch [97] [] = .ok ([] : List Nat) :=
  c1_diff_patch_roundtrip [97] [] 64 [] (by decide) (by norm_num) (by norm_num)
    bsdiff_one_byte_old_empty_new

end Bsdiff
